import Mathlib

/-!
BiBoP small-object allocator (`src/src/bibop.c`)

A shallow embedding of `bibop_page_belongs`, `bibop_malloc_cx` and `bibop_free_cx`.

Modelling conventions

* Pointers are natural numbers, `0` is `NULL`.
* `struct bibop_cx` is a record of the three scalar fields, the two tables it points to and
  the memory the allocator works on.  Memory is typed: `hdr a` is the page header that lives at
  address `a` (`none`: no page header lives there), `item a` is the size-class record at address
  `a`, and `byte a` is the byte of object storage at address `a`.
* A C statement that dereferences a page or class-record pointer at which nothing lives, or that
  indexes `free_list` outside its length, has no defined behaviour; the embedding returns
  `Stuck.bad_access`.  A failing `assert` returns `Stuck.assert_fail`.
* `uint16_t` values are natural numbers reduced `% 65536` where the C code converts to
  `bibop_page_size_type`; the comparison on line 136 is carried out in `Int`, as C does after
  integer promotion.  A 16-bit object in storage is two bytes, low byte first.
-/

namespace Bibop

/-- Line 53: `#define BIBOP_PAGE_SIZE 4096`. -/
def BIBOP_PAGE_SIZE : Nat := 4096

/-- Line 54: `#define BIBOP_PAGE_MASK 0xFFF`. -/
def BIBOP_PAGE_MASK : Nat := 0xFFF

/-- Lines 58-67: `struct bibop_page_header`. -/
structure bibop_page_header where
  next : Nat
  prev : Nat
  inc_off : Nat
  free_off : Nat
  top_index : Nat
  sub_index : Nat
  size : Nat
deriving DecidableEq, Repr

/-- Lines 69-79: `struct bibop_free_item`. -/
structure bibop_free_item where
  free : Nat
  full : Nat
  obj_size : Nat
deriving DecidableEq, Repr

/-- Lines 82-93: `struct bibop_cx`, together with the memory its pointers lead into.
`pages i` is the row `cx->pages[i]` (`none` when that row pointer is `NULL`), `free_list` is the
array of class-record pointers. -/
structure bibop_cx where
  pages : Nat → Option (Nat → Nat)
  free_list : List Nat
  max_size : Nat
  top_size : Nat
  sub_size : Nat
  hdr : Nat → Option bibop_page_header
  item : Nat → Option bibop_free_item
  byte : Nat → Nat

/-- Ways in which a C call leaves defined behaviour or aborts. -/
inductive Stuck where
  | assert_fail
  | bad_access
deriving DecidableEq, Repr

/-- Write the page header at address `a`. -/
def store_hdr (cx : bibop_cx) (a : Nat) (h : bibop_page_header) : bibop_cx :=
  { cx with hdr := fun b => if b = a then some h else cx.hdr b }

/-- Write the class record at address `a`. -/
def store_item (cx : bibop_cx) (a : Nat) (it : bibop_free_item) : bibop_cx :=
  { cx with item := fun b => if b = a then some it else cx.item b }

/-- Read of `*(bibop_page_size_type*)ptr`: two bytes of storage, low byte first. -/
def read16 (cx : bibop_cx) (ptr : Nat) : Nat :=
  cx.byte ptr % 256 + 256 * (cx.byte (ptr + 1) % 256)

/-- Write of `*(bibop_page_size_type*)ptr = v`: two bytes of storage, low byte first. -/
def write16 (cx : bibop_cx) (ptr v : Nat) : bibop_cx :=
  { cx with byte := fun b =>
      if b = ptr then v % 256 else if b = ptr + 1 then v / 256 % 256 else cx.byte b }

/-- The entry `cx->pages[i][j]` of the ownership table, `none` when row `i` is `NULL`. -/
def pages_entry (cx : bibop_cx) (i j : Nat) : Option Nat :=
  match cx.pages i with
  | none => none
  | some row => some (row j)

/-- Lines 103-113: `bibop_page_belongs`.  The context is returned next to the answer so that the
absence of writes is part of the result. -/
def bibop_page_belongs (cx : bibop_cx) (page : Nat) : Except Stuck (Bool × bibop_cx) :=
  match cx.hdr page with
  | none => .error .bad_access
  | some h =>
    let i := h.top_index
    let j := h.sub_index
    .ok (decide (i < cx.top_size) && (decide (j < cx.sub_size) &&
          (match cx.pages i with
           | none => false
           | some row => decide (page = row j))), cx)

/-- Lines 133-141 of `bibop_malloc_cx`: carve one object of `size` bytes out of the page whose
header is `h`; the result is the object pointer and the updated header. -/
def bibop_malloc_carve (cx : bibop_cx) (page : Nat) (h : bibop_page_header) (size : Nat) :
    Except Stuck (Nat × bibop_page_header) :=
  if h.inc_off ≠ 0 then
    let new_off := (h.inc_off + size) % 65536
    let ptr := page + h.inc_off
    .ok (ptr, { h with inc_off :=
      if (BIBOP_PAGE_SIZE : Int) - (new_off : Int) > (size : Int) then new_off else 0 })
  else if h.free_off = 0 then .error .assert_fail
  else
    let ptr := page + h.free_off
    .ok (ptr, { h with free_off := read16 cx ptr })

/-- Lines 143-147 of `bibop_malloc_cx`: when the carved page has neither bump space nor a freed
slot, move it from the head of the free-page list to the head of the full-page list. -/
def bibop_malloc_relink (cx : bibop_cx) (ip : Nat) (item : bibop_free_item) (page : Nat)
    (h : bibop_page_header) : bibop_cx :=
  if h.free_off = 0 ∧ h.inc_off = 0 then
    store_item (store_hdr cx page { h with next := item.full }) ip
      { item with free := h.next, full := page }
  else store_hdr cx page h

/-- Lines 115-150: `bibop_malloc_cx`.  The result is the returned pointer (`0` for `NULL`) and
the context after the call. -/
def bibop_malloc_cx (cx : bibop_cx) (size : Nat) : Except Stuck (Nat × bibop_cx) :=
  if size ≥ cx.max_size then .ok (0, cx)
  else
    match cx.free_list[size]? with
    | none => .error .bad_access
    | some ip =>
      match cx.item ip with
      | none => .error .bad_access
      | some item =>
        if item.free = 0 then .ok (0, cx)
        else
          let page := item.free
          match cx.hdr page with
          | none => .error .bad_access
          | some h =>
            if ¬ size ≤ item.obj_size then .error .assert_fail
            else
              match bibop_malloc_carve cx page h item.obj_size with
              | .error e => .error e
              | .ok (ptr, h1) => .ok (ptr, bibop_malloc_relink cx ip item page h1)

/-- Line 164: `if( page->prev ) page->prev = page->next;`. -/
def bibop_free_unlink_prev (cx : bibop_cx) (page : Nat) : Except Stuck bibop_cx :=
  match cx.hdr page with
  | none => .error .bad_access
  | some h => if h.prev ≠ 0 then .ok (store_hdr cx page { h with prev := h.next }) else .ok cx

/-- Line 165: `if( page->next ) page->next->prev = page->prev;`. -/
def bibop_free_unlink_next (cx : bibop_cx) (page : Nat) : Except Stuck bibop_cx :=
  match cx.hdr page with
  | none => .error .bad_access
  | some h =>
    if h.next ≠ 0 then
      match cx.hdr h.next with
      | none => .error .bad_access
      | some hn => .ok (store_hdr cx h.next { hn with prev := h.prev })
    else .ok cx

/-- Lines 167-169: push `page` on the head of the free-page list of the class record at `ip`. -/
def bibop_free_push (cx : bibop_cx) (ip : Nat) (page : Nat) : Except Stuck bibop_cx :=
  match cx.item ip, cx.hdr page with
  | some item, some h =>
    let cx1 := store_hdr cx page { h with next := item.free }
    if item.free ≠ 0 then
      match cx1.hdr item.free with
      | none => .error .bad_access
      | some hn =>
        .ok (store_item (store_hdr cx1 item.free { hn with prev := page }) ip
              { item with free := page })
    else .ok (store_item cx1 ip { item with free := page })
  | _, _ => .error .bad_access

/-- Lines 156-170 of `bibop_free_cx`, for the page pointer `page` computed on line 155. -/
def bibop_free_page (cx : bibop_cx) (ptr page : Nat) : Except Stuck bibop_cx :=
  match cx.hdr page with
  | none => .error .bad_access
  | some h =>
    let was_full : Bool := decide (0 = h.inc_off) && decide (0 = h.free_off)
    let new_off : Nat := (((ptr : Int) - (page : Int)) % 65536).toNat
    let cx1 := write16 cx ptr h.free_off
    let cx2 := store_hdr cx1 page { h with free_off := new_off }
    if was_full then
      match cx2.free_list[h.size]? with
      | none => .error .bad_access
      | some ip =>
        match bibop_free_unlink_prev cx2 page with
        | .error e => .error e
        | .ok cx3 =>
          match bibop_free_unlink_next cx3 page with
          | .error e => .error e
          | .ok cx4 => bibop_free_push cx4 ip page
    else .ok cx2

/-- Line 155 of `bibop_free_cx`: the page pointer computed from the object pointer. -/
def bibop_free_locate (ptr : Nat) : Nat := ptr &&& BIBOP_PAGE_MASK

/-- Line 157 of `bibop_free_cx`: the 16-bit slot offset derived from the object pointer and the
page pointer of line 155. -/
def bibop_free_offset (ptr : Nat) : Nat :=
  (((ptr : Int) - (bibop_free_locate ptr : Int)) % 65536).toNat

/-- Lines 152-171: `bibop_free_cx`. -/
def bibop_free_cx (cx : bibop_cx) (ptr : Nat) : Except Stuck bibop_cx :=
  bibop_free_page cx ptr (bibop_free_locate ptr)

/-! ## Runs, example contexts and the notions the statements use -/

/-- The pointer a call of `bibop_malloc_cx` returned, `none` when the call got stuck. -/
def ret_ptr : Except Stuck (Nat × bibop_cx) → Option Nat
  | .ok (p, _) => some p
  | .error _ => none

/-- Successive calls `bibop_malloc_cx(cx, s)` for the sizes `s` of the list, in order; the result
lists the returned pointers in call order. -/
def malloc_seq : bibop_cx → List Nat → Except Stuck (List Nat × bibop_cx)
  | cx, [] => .ok ([], cx)
  | cx, s :: ss =>
    match bibop_malloc_cx cx s with
    | .error e => .error e
    | .ok (p, cx1) =>
      match malloc_seq cx1 ss with
      | .error e => .error e
      | .ok (ps, cx2) => .ok (p :: ps, cx2)

/-- A context with `mx` size classes that all share the class record `it` at address `100`,
and one page at address `4096` with header `hd`; the page is entry `[0][0]` of a 1x1
ownership table and storage is zeroed. -/
def mk_cx (mx : Nat) (it : bibop_free_item) (hd : bibop_page_header) : bibop_cx where
  pages := fun i => if i = 0 then some (fun j => if j = 0 then 4096 else 0) else none
  free_list := List.replicate mx 100
  max_size := mx
  top_size := 1
  sub_size := 1
  hdr := fun a => if a = 4096 then some hd else none
  item := fun a => if a = 100 then some it else none
  byte := fun _ => 0

/-- The context `mk_cx` with canonical size `c` whose page is freshly provided: bump cursor at
`inc`, no freed slot, at the head of the free-page list, full-page list empty. -/
def fresh_cx (mx c inc : Nat) : bibop_cx :=
  mk_cx mx ⟨4096, 0, c⟩ ⟨0, 0, inc, 0, 0, 0, c⟩

/-- Number of non-`NULL` pointers of `ps` that lie in the 4096 bytes of the page at `a`. -/
def served (a : Nat) (ps : List Nat) : Nat :=
  (ps.filter (fun p => decide (p ≠ 0 ∧ a ≤ p ∧ p < a + BIBOP_PAGE_SIZE))).length

/-- Well-formed context of freshly provided pages: every page starts at a multiple of 4096, its
bump cursor is a non-zero offset inside the page and it has no freed slot; every canonical size
is a `bibop_obj_size_type` value. -/
def fresh_pages (cx : bibop_cx) : Prop :=
  (∀ a h, cx.hdr a = some h →
    a % 4096 = 0 ∧ 0 < h.inc_off ∧ h.inc_off < 4096 ∧ h.free_off = 0) ∧
  (∀ ip it, cx.item ip = some it → it.obj_size ≤ 255)

/-- State invariant of allocation-only runs started from `fresh_pages`, with `live` the
non-`NULL` pointers handed out so far: every live pointer lies in a page of the context, below
that page's bump cursor while the cursor is non-zero, and no pointer was handed out twice. -/
def bump_inv (live : List Nat) (cx : bibop_cx) : Prop :=
  (∀ a h, cx.hdr a = some h → a % 4096 = 0 ∧ h.inc_off < 4096 ∧ h.free_off = 0) ∧
  (∀ ip it, cx.item ip = some it → 1 ≤ it.obj_size ∧ it.obj_size ≤ 255) ∧
  (∀ q ∈ live, q ≠ 0 ∧ ∃ a h, cx.hdr a = some h ∧ a ≤ q ∧ q < a + 4096 ∧
    (h.inc_off ≠ 0 → q < a + h.inc_off)) ∧
  live.Nodup

/-- The Page Provider's initial condition with header size `hs`: every page starts at a multiple
of 4096 and has `hs <= inc_off`, `inc_off + size <= 4096`, `free_off = 0` and `size <= 255`,
where `size` is the canonical size the page is stamped with; the pages at the two heads of a
class record and the successor of a page carry the same stamp as the record, respectively the
page. -/
def provider_init (hs : Nat) (cx : bibop_cx) : Prop :=
  (∀ a h, cx.hdr a = some h →
    a % 4096 = 0 ∧ hs ≤ h.inc_off ∧ h.inc_off + h.size ≤ 4096 ∧ h.free_off = 0 ∧
      h.size ≤ 255) ∧
  (∀ ip it h, cx.item ip = some it → cx.hdr it.free = some h → h.size = it.obj_size) ∧
  (∀ ip it h, cx.item ip = some it → cx.hdr it.full = some h → h.size = it.obj_size) ∧
  (∀ a h h', cx.hdr a = some h → cx.hdr h.next = some h' → h'.size = h.size)

/-- State invariant of allocation-only runs started from the context `cx0` that satisfies
`provider_init hs` and has no page of canonical size 0, with `ps` the pointers returned so far:
pages keep their address and stamp,
no slot is freed, a non-zero bump cursor equals the initial cursor plus the bytes served and
leaves room for one object, and a zero cursor means the bytes served fit in the page. -/
def page_inv (hs : Nat) (cx0 : bibop_cx) (ps : List Nat) (cx : bibop_cx) : Prop :=
  (∀ a h, cx.hdr a = some h → ∃ h0, cx0.hdr a = some h0 ∧ h.size = h0.size ∧
    a % 4096 = 0 ∧ h.free_off = 0 ∧ 1 ≤ h.size ∧ h.size ≤ 255 ∧ hs ≤ h0.inc_off ∧
    (h.inc_off ≠ 0 → hs ≤ h.inc_off ∧ h.inc_off + h.size ≤ 4096 ∧
      h.inc_off = h0.inc_off + served a ps * h.size) ∧
    (h.inc_off = 0 → h0.inc_off + served a ps * h.size ≤ 4096)) ∧
  (∀ a h0, cx0.hdr a = some h0 → ∃ h, cx.hdr a = some h) ∧
  (∀ ip it h, cx.item ip = some it → cx.hdr it.free = some h → h.size = it.obj_size) ∧
  (∀ ip it h, cx.item ip = some it → cx.hdr it.full = some h → h.size = it.obj_size) ∧
  (∀ a h h', cx.hdr a = some h → cx.hdr h.next = some h' → h'.size = h.size)

/-- The page `page` serves size `s` through the class record at `ip` from its bump region: it
is the head of the record's free-page list, the record has canonical size `c`, and the page has
bump cursor `off` and no freed slot. -/
def bump_live (cx : bibop_cx) (s ip page c off : Nat) : Prop :=
  s < cx.max_size ∧ cx.free_list[s]? = some ip ∧ s ≤ c ∧
  (∃ it, cx.item ip = some it ∧ it.free = page ∧ it.obj_size = c) ∧
  (∃ h, cx.hdr page = some h ∧ h.inc_off = off ∧ h.free_off = 0)

/-- The bump region of the page `page` is exhausted. -/
def bump_dead (cx : bibop_cx) (page : Nat) : Prop :=
  ∃ h, cx.hdr page = some h ∧ h.inc_off = 0

/-- Line 162 of `bibop_free_cx`: the class record selected for the page `page`, the entry
`cx->free_list[page->size]`. -/
def bibop_free_class (cx : bibop_cx) (page : Nat) : Except Stuck Nat :=
  match cx.hdr page with
  | none => .error .bad_access
  | some h =>
    match cx.free_list[h.size]? with
    | none => .error .bad_access
    | some ip => .ok ip

/-- A context given by tables: `fl` is the array of class-record pointers (`max_size` is its
length), `items` lists the class records with their addresses, `hdrs` the page headers with
their addresses and `bytes` is the object storage; the ownership table is empty. -/
def tab_cx (fl : List Nat) (items : List (Nat × bibop_free_item))
    (hdrs : List (Nat × bibop_page_header)) (bytes : Nat → Nat) : bibop_cx where
  pages := fun _ => none
  free_list := fl
  max_size := fl.length
  top_size := 0
  sub_size := 0
  hdr := fun a => hdrs.lookup a
  item := fun a => items.lookup a
  byte := bytes

/-- The pages met when following at most `fuel` `next` links from the list head `head`. -/
def page_list (cx : bibop_cx) : Nat → Nat → List Nat
  | 0, _ => []
  | fuel + 1, head =>
    if head = 0 then []
    else head ::
      match cx.hdr head with
      | none => []
      | some h => page_list cx fuel h.next

/-- Doubly-linked well-formedness of the page list that starts at `head`: the head has
`prev = NULL`, and every page `q` of the list with `q.next != NULL` has `q.next.prev = q`. -/
def links_ok (cx : bibop_cx) (fuel head : Nat) : Bool :=
  (head == 0 ||
    match cx.hdr head with
    | none => false
    | some h => h.prev == 0) &&
  (page_list cx fuel head).all (fun q =>
    match cx.hdr q with
    | none => false
    | some h =>
      h.next == 0 ||
        match cx.hdr h.next with
        | none => false
        | some hn => hn.prev == q)

/-- The `next` links from `head` run through exactly the pages of `l` and end in `NULL`. -/
def is_list (cx : bibop_cx) : Nat → List Nat → Prop
  | head, [] => head = 0
  | head, a :: l => head = a ∧ a ≠ 0 ∧ ∃ h, cx.hdr a = some h ∧ is_list cx h.next l

/-- The page at `a` has spare capacity: bump space or a freed slot. -/
def spare (cx : bibop_cx) (a : Nat) : Prop :=
  ∃ h, cx.hdr a = some h ∧ (h.inc_off ≠ 0 ∨ h.free_off ≠ 0)

/-- The free-page lists of the context are the lists `L ip`, one for each class record `ip`:
each is a `NULL`-terminated list without repetition whose pages all have spare capacity, and
the lists of different class records share no page. -/
def free_lists_ok (cx : bibop_cx) (L : Nat → List Nat) : Prop :=
  (∀ ip it, cx.item ip = some it →
    is_list cx it.free (L ip) ∧ (L ip).Nodup ∧ ∀ a ∈ L ip, spare cx a) ∧
  (∀ ip jp it jt, cx.item ip = some it → cx.item jp = some jt → ip ≠ jp →
    ∀ a ∈ L ip, a ∉ L jp)

/-- The class array has `max_size` entries and every class's canonical size is at least its
index. -/
def class_sizes_ok (cx : bibop_cx) : Prop :=
  cx.free_list.length = cx.max_size ∧
  ∀ s ip it, cx.free_list[s]? = some ip → cx.item ip = some it → s ≤ it.obj_size

/-- Three full pages of canonical size 16 at 4096, 8192 and 12288, doubly linked in this order
on the full-page list of the one class record (at address 100); the free-page list is empty. -/
def full3_cx : bibop_cx :=
  tab_cx (List.replicate 17 100) [(100, ⟨0, 4096, 16⟩)]
    [(4096, ⟨8192, 0, 0, 0, 0, 0, 16⟩), (8192, ⟨12288, 4096, 0, 0, 0, 0, 16⟩),
      (12288, ⟨0, 8192, 0, 0, 0, 0, 16⟩)] (fun _ => 0)

/-- Two fresh pages of canonical size 16 at 4096 and 8192 with room for one object each, doubly
linked in this order on the free-page list of the one class record (at address 100); the
full-page list is empty. -/
def free2_cx : bibop_cx :=
  tab_cx (List.replicate 17 100) [(100, ⟨4096, 0, 16⟩)]
    [(4096, ⟨8192, 0, 4064, 0, 0, 0, 16⟩), (8192, ⟨0, 4096, 4064, 0, 0, 0, 16⟩)] (fun _ => 0)

/-- Two class records: sizes 0..15 are served by the record at 100 with canonical size 16,
sizes 16..31 by the record at 200 with canonical size 32; the record at 100 has one fresh page
at 4096 with room for one object, the record at 200 has no page. -/
def two_class_cx : bibop_cx :=
  tab_cx (List.replicate 16 100 ++ List.replicate 16 200)
    [(100, ⟨4096, 0, 16⟩), (200, ⟨0, 0, 32⟩)]
    [(4096, ⟨0, 0, 4064, 0, 0, 0, 16⟩)] (fun _ => 0)

/-- Every page on every class's free-page list has spare capacity: the free-page list of each
class record `ip` is the `NULL`-terminated list `L ip` and each of its pages has bump space or
a freed slot.  Nothing is said about repetition or about pages shared between lists. -/
def free_pages_spare (cx : bibop_cx) (L : Nat → List Nat) : Prop :=
  ∀ ip it, cx.item ip = some it → is_list cx it.free (L ip) ∧ ∀ a ∈ L ip, spare cx a

/-- Two class records of canonical size 16, at 100 for the sizes 0..7 and at 200 for the sizes
8..16, whose free-page lists both hold the one page at 4096, which has room for one object. -/
def shared_cx : bibop_cx :=
  tab_cx (List.replicate 8 100 ++ List.replicate 9 200)
    [(100, ⟨4096, 0, 16⟩), (200, ⟨4096, 0, 16⟩)]
    [(4096, ⟨0, 0, 4064, 0, 0, 0, 16⟩)] (fun _ => 0)

/-- One page of canonical size 16 at 4096 with exhausted bump region whose internal free list
is the slot at offset 128 followed by the slot at offset 320: the first two bytes of the slot
at 4096 + 128 hold the 16-bit value 320 (low byte 64, high byte 1). -/
def recycle_cx : bibop_cx :=
  tab_cx (List.replicate 17 100) [(100, ⟨4096, 0, 16⟩)]
    [(4096, ⟨0, 0, 0, 128, 0, 0, 16⟩)]
    (fun b => if b = 4224 then 64 else if b = 4225 then 1 else 0)

/-! ## Lemmas about the blocks of `bibop_malloc_cx` -/

theorem carve_bump {cx : bibop_cx} {page : Nat} {h : bibop_page_header} {size : Nat}
    (hi : h.inc_off ≠ 0) :
    bibop_malloc_carve cx page h size = .ok (page + h.inc_off, { h with inc_off :=
      if (BIBOP_PAGE_SIZE : Int) - (((h.inc_off + size) % 65536 : Nat) : Int) > (size : Int)
      then (h.inc_off + size) % 65536 else 0 }) := by
  unfold bibop_malloc_carve
  simp [hi]

theorem carve_recycle {cx : bibop_cx} {page : Nat} {h : bibop_page_header} {size : Nat}
    (hi : h.inc_off = 0) (hf : h.free_off ≠ 0) :
    bibop_malloc_carve cx page h size =
      .ok (page + h.free_off, { h with free_off := read16 cx (page + h.free_off) }) := by
  unfold bibop_malloc_carve
  simp [hi, hf]

theorem carve_assert {cx : bibop_cx} {page : Nat} {h : bibop_page_header} {size : Nat}
    (hi : h.inc_off = 0) (hf : h.free_off = 0) :
    bibop_malloc_carve cx page h size = .error .assert_fail := by
  unfold bibop_malloc_carve
  simp [hi, hf]

theorem malloc_ok_cases {cx cx' : bibop_cx} {s p : Nat}
    (hm : bibop_malloc_cx cx s = .ok (p, cx')) :
    (p = 0 ∧ cx' = cx) ∨
    ∃ ip it h h1, s < cx.max_size ∧ cx.free_list[s]? = some ip ∧ cx.item ip = some it ∧
      it.free ≠ 0 ∧ cx.hdr it.free = some h ∧ s ≤ it.obj_size ∧
      bibop_malloc_carve cx it.free h it.obj_size = .ok (p, h1) ∧
      cx' = bibop_malloc_relink cx ip it it.free h1 := by
  unfold bibop_malloc_cx at hm
  split at hm
  · simp only [Except.ok.injEq, Prod.mk.injEq] at hm
    exact Or.inl ⟨hm.1.symm, hm.2.symm⟩
  · rename_i hlt
    split at hm
    · cases hm
    · rename_i ip hip
      split at hm
      · cases hm
      · rename_i it hit
        split at hm
        · simp only [Except.ok.injEq, Prod.mk.injEq] at hm
          exact Or.inl ⟨hm.1.symm, hm.2.symm⟩
        · rename_i hfree
          simp only at hm
          split at hm
          · cases hm
          · rename_i h hh
            split at hm
            · cases hm
            · rename_i hle
              split at hm
              · cases hm
              · rename_i ptr h1 hc
                simp only [Except.ok.injEq, Prod.mk.injEq] at hm
                refine Or.inr ⟨ip, it, h, h1, by omega, hip, hit, hfree, hh, by omega, ?_, hm.2.symm⟩
                rw [hc, hm.1]

theorem malloc_eq_of_head {cx : bibop_cx} {s ip p : Nat} {it : bibop_free_item}
    {h h1 : bibop_page_header} (hs : s < cx.max_size) (hip : cx.free_list[s]? = some ip)
    (hit : cx.item ip = some it) (hfree : it.free ≠ 0) (hh : cx.hdr it.free = some h)
    (hle : s ≤ it.obj_size)
    (hc : bibop_malloc_carve cx it.free h it.obj_size = .ok (p, h1)) :
    bibop_malloc_cx cx s = .ok (p, bibop_malloc_relink cx ip it it.free h1) := by
  unfold bibop_malloc_cx
  simp [Nat.not_le.mpr hs, hip, hit, hfree, hh, hle, hc]

theorem relink_hdr (cx : bibop_cx) (ip : Nat) (it : bibop_free_item) (page : Nat)
    (h : bibop_page_header) (b : Nat) :
    (bibop_malloc_relink cx ip it page h).hdr b =
      if b = page then
        some (if h.free_off = 0 ∧ h.inc_off = 0 then { h with next := it.full } else h)
      else cx.hdr b := by
  unfold bibop_malloc_relink store_item store_hdr
  split <;> simp

theorem relink_item (cx : bibop_cx) (ip : Nat) (it : bibop_free_item) (page : Nat)
    (h : bibop_page_header) (b : Nat) :
    (bibop_malloc_relink cx ip it page h).item b =
      if b = ip ∧ h.free_off = 0 ∧ h.inc_off = 0 then
        some { it with free := h.next, full := page }
      else cx.item b := by
  unfold bibop_malloc_relink store_item store_hdr
  split <;> rename_i hc
  · by_cases hb : b = ip <;> simp [hb, hc]
  · simp [hc]

theorem relink_frame (cx : bibop_cx) (ip : Nat) (it : bibop_free_item) (page : Nat)
    (h : bibop_page_header) :
    (bibop_malloc_relink cx ip it page h).free_list = cx.free_list ∧
    (bibop_malloc_relink cx ip it page h).max_size = cx.max_size ∧
    (bibop_malloc_relink cx ip it page h).byte = cx.byte ∧
    (bibop_malloc_relink cx ip it page h).pages = cx.pages ∧
    (bibop_malloc_relink cx ip it page h).top_size = cx.top_size ∧
    (bibop_malloc_relink cx ip it page h).sub_size = cx.sub_size := by
  unfold bibop_malloc_relink store_item store_hdr
  split <;> simp

/-! ## Allocation-only runs -/

/-- The bump step of `bibop_malloc_carve` when the 16-bit sum does not wrap. -/
theorem carve_bump_nowrap {cx : bibop_cx} {page : Nat} {h h1 : bibop_page_header} {size p : Nat}
    (hi : h.inc_off ≠ 0) (hw : h.inc_off + size < 65536)
    (hc : bibop_malloc_carve cx page h size = .ok (p, h1)) :
    p = page + h.inc_off ∧ h1.free_off = h.free_off ∧ h1.next = h.next ∧ h1.size = h.size ∧
      h1.prev = h.prev ∧ h1.top_index = h.top_index ∧ h1.sub_index = h.sub_index ∧
      ((h.inc_off + 2 * size < 4096 ∧ h1.inc_off = h.inc_off + size) ∨
        (4096 ≤ h.inc_off + 2 * size ∧ h1.inc_off = 0)) := by
  rw [carve_bump hi] at hc
  simp only [Except.ok.injEq, Prod.mk.injEq] at hc
  obtain ⟨hp, hh⟩ := hc
  subst hh
  rw [Nat.mod_eq_of_lt hw]
  refine ⟨hp.symm, rfl, rfl, rfl, rfl, rfl, rfl, ?_⟩
  simp only [BIBOP_PAGE_SIZE]
  by_cases hlt : h.inc_off + 2 * size < 4096
  · left
    refine ⟨hlt, ?_⟩
    rw [if_pos (by push_cast; omega)]
  · right
    refine ⟨by omega, ?_⟩
    rw [if_neg (by push_cast; omega)]

theorem bump_inv_step {live : List Nat} {cx cx' : bibop_cx} {s p : Nat}
    (hinv : bump_inv live cx) (hm : bibop_malloc_cx cx s = .ok (p, cx')) :
    (p = 0 ∧ cx' = cx) ∨ (p ≠ 0 ∧ bump_inv (p :: live) cx') := by
  rcases malloc_ok_cases hm with h0 | ⟨ip, it, h, h1, -, -, hit, hfree, hh, -, hcar, hcx⟩
  · exact Or.inl h0
  · right
    obtain ⟨hpg, hitm, hlive, hnd⟩ := hinv
    obtain ⟨hal, hlt, hfo⟩ := hpg _ _ hh
    obtain ⟨hc1, hc2⟩ := hitm _ _ hit
    by_cases hi : h.inc_off = 0
    · rw [carve_assert hi hfo] at hcar
      cases hcar
    · obtain ⟨hp, h1f, -, -, -, -, -, hcur⟩ := carve_bump_nowrap hi (by omega) hcar
      have hpne : p ≠ 0 := by omega
      have hnew : ∀ b hb, cx'.hdr b = some hb →
          (b = it.free ∧ hb.inc_off = h1.inc_off ∧ hb.free_off = 0) ∨
            (b ≠ it.free ∧ cx.hdr b = some hb) := by
        intro b hb hbb
        rw [hcx, relink_hdr] at hbb
        by_cases hbe : b = it.free
        · left
          rw [if_pos hbe] at hbb
          simp only [Option.some.injEq] at hbb
          subst hbb
          refine ⟨hbe, ?_, ?_⟩ <;> split <;> simp_all
        · right
          rw [if_neg hbe] at hbb
          exact ⟨hbe, hbb⟩
      have hpage : ∃ hb, cx'.hdr it.free = some hb ∧ hb.inc_off = h1.inc_off := by
        rw [hcx, relink_hdr, if_pos rfl]
        refine ⟨_, rfl, ?_⟩
        split <;> rfl
      refine ⟨hpne, ?_, ?_, ?_, ?_⟩
      · intro b hb hbb
        rcases hnew b hb hbb with ⟨hbe, hio, hfo'⟩ | ⟨-, hold⟩
        · subst hbe
          refine ⟨hal, ?_, hfo'⟩
          rw [hio]
          omega
        · exact hpg _ _ hold
      · intro jp jt hj
        rw [hcx, relink_item] at hj
        split at hj
        · rename_i hcond
          simp only [Option.some.injEq] at hj
          subst hj
          exact hitm ip it hit
        · exact hitm _ _ hj
      · intro q hq
        rcases List.mem_cons.mp hq with hqp | hql
        · subst hqp
          obtain ⟨hb, hbb, hbi⟩ := hpage
          refine ⟨hpne, it.free, hb, hbb, by omega, by omega, ?_⟩
          rw [hbi]
          omega
        · obtain ⟨hq0, a, ha, hah, h1', h2', h3'⟩ := hlive q hql
          refine ⟨hq0, ?_⟩
          by_cases hae : a = it.free
          · subst hae
            obtain ⟨hb, hbb, hbi⟩ := hpage
            rw [hh] at hah
            cases hah
            refine ⟨it.free, hb, hbb, h1', h2', ?_⟩
            rw [hbi]
            have := h3' hi
            omega
          · refine ⟨a, ha, ?_, h1', h2', h3'⟩
            rw [hcx, relink_hdr, if_neg hae]
            exact hah
      · refine List.nodup_cons.mpr ⟨?_, hnd⟩
        intro hq
        obtain ⟨-, a, ha, hah, h1', h2', h3'⟩ := hlive p hq
        obtain ⟨hal', -, -⟩ := hpg _ _ hah
        by_cases hae : a = it.free
        · subst hae
          rw [hh] at hah
          cases hah
          have := h3' hi
          omega
        · omega

theorem relink_hdr_cases {cx : bibop_cx} {ip : Nat} {it : bibop_free_item} {page : Nat}
    {h x : bibop_page_header} {b : Nat}
    (hx : (bibop_malloc_relink cx ip it page h).hdr b = some x) :
    (b = page ∧ x.size = h.size ∧ x.inc_off = h.inc_off ∧ x.free_off = h.free_off ∧
      (x.next = h.next ∨ x.next = it.full)) ∨ (b ≠ page ∧ cx.hdr b = some x) := by
  rw [relink_hdr] at hx
  by_cases hb : b = page
  · left
    rw [if_pos hb] at hx
    simp only [Option.some.injEq] at hx
    subst hx
    split
    · exact ⟨hb, rfl, rfl, rfl, Or.inr rfl⟩
    · exact ⟨hb, rfl, rfl, rfl, Or.inl rfl⟩
  · right
    rw [if_neg hb] at hx
    exact ⟨hb, hx⟩

theorem relink_hdr_page (cx : bibop_cx) (ip : Nat) (it : bibop_free_item) (page : Nat)
    (h : bibop_page_header) :
    ∃ x, (bibop_malloc_relink cx ip it page h).hdr page = some x ∧ x.size = h.size ∧
      x.inc_off = h.inc_off ∧ x.free_off = h.free_off := by
  rw [relink_hdr, if_pos rfl]
  refine ⟨_, rfl, ?_⟩
  split <;> exact ⟨rfl, rfl, rfl⟩

theorem relink_item_cases {cx : bibop_cx} {ip : Nat} {it y : bibop_free_item} {page : Nat}
    {h : bibop_page_header} {j : Nat}
    (hy : (bibop_malloc_relink cx ip it page h).item j = some y) :
    (j = ip ∧ y.free = h.next ∧ y.full = page ∧ y.obj_size = it.obj_size) ∨
      cx.item j = some y := by
  rw [relink_item] at hy
  split at hy
  · rename_i hc
    simp only [Option.some.injEq] at hy
    subst hy
    exact Or.inl ⟨hc.1, rfl, rfl, rfl⟩
  · exact Or.inr hy

theorem served_snoc (a : Nat) (ps : List Nat) (p : Nat) :
    served a (ps ++ [p]) =
      served a ps + if p ≠ 0 ∧ a ≤ p ∧ p < a + 4096 then 1 else 0 := by
  unfold served BIBOP_PAGE_SIZE
  rw [List.filter_append, List.length_append]
  by_cases hc : p ≠ 0 ∧ a ≤ p ∧ p < a + 4096
  · rw [if_pos hc, List.filter_cons_of_pos (by simpa using hc)]
    rfl
  · rw [if_neg hc, List.filter_cons_of_neg (by simpa using hc)]
    rfl

theorem page_inv_step {hs : Nat} {cx0 cx cx' : bibop_cx} {ps : List Nat} {s p : Nat}
    (hinv : page_inv hs cx0 ps cx) (hm : bibop_malloc_cx cx s = .ok (p, cx')) :
    page_inv hs cx0 (ps ++ [p]) cx' ∧
      (p ≠ 0 → ∃ a h0, cx0.hdr a = some h0 ∧ a % 4096 = 0 ∧ a ≤ p ∧ hs ≤ p - a ∧
        (p - a) + h0.size ≤ 4096) := by
  obtain ⟨hpg, hper, hsf, hsu, hsn⟩ := hinv
  rcases malloc_ok_cases hm with ⟨hp0, hcx⟩ | ⟨ip, it, h, h1, -, -, hit, hfree, hh, -, hcar, hcx⟩
  · subst hp0 hcx
    refine ⟨⟨?_, hper, hsf, hsu, hsn⟩, fun hne => absurd rfl hne⟩
    intro a h hah
    have hsv : served a (ps ++ [0]) = served a ps := by
      rw [served_snoc]; simp
    rw [hsv]
    exact hpg a h hah
  · obtain ⟨h0, hh0, hsz, hal, hfo, hc1, hc2, hhs, hnz, -⟩ := hpg _ _ hh
    have hobj : h.size = it.obj_size := hsf _ _ _ hit hh
    by_cases hi : h.inc_off = 0
    · rw [carve_assert hi hfo] at hcar
      cases hcar
    · obtain ⟨hlo, hhi, hcnt⟩ := hnz hi
      obtain ⟨hp, h1f, h1n, h1s, -, -, -, hcur⟩ :=
        carve_bump_nowrap hi (by omega) hcar
      have hsvP : served it.free (ps ++ [p]) = served it.free ps + 1 := by
        rw [served_snoc, if_pos (by omega)]
      have hsvO : ∀ b, b % 4096 = 0 → b ≠ it.free →
          served b (ps ++ [p]) = served b ps := by
        intro b hb hne
        rw [served_snoc, if_neg (by omega)]
        rfl
      have hsize : ∀ b x, cx'.hdr b = some x → ∃ y, cx.hdr b = some y ∧ x.size = y.size := by
        intro b x hx
        rw [hcx] at hx
        rcases relink_hdr_cases hx with ⟨hb, hxs, -, -, -⟩ | ⟨-, hold⟩
        · exact ⟨h, hb ▸ hh, by omega⟩
        · exact ⟨x, hold, rfl⟩
      refine ⟨⟨?_, ?_, ?_, ?_, ?_⟩, fun _ => ⟨it.free, h0, hh0, hal, by omega, by omega, by omega⟩⟩
      · intro b x hx
        rw [hcx] at hx
        rcases relink_hdr_cases hx with ⟨hb, hxs, hxi, hxf, -⟩ | ⟨hb, hold⟩
        · subst hb
          refine ⟨h0, hh0, by omega, hal, by omega, by omega, by omega, hhs, ?_, ?_⟩
          · intro hne
            rw [hsvP, hxs, hxi, h1s]
            rcases hcur with ⟨hc, he⟩ | ⟨hc, he⟩
            · rw [he, hcnt, hobj] at *
              refine ⟨by omega, by omega, ?_⟩
              rw [Nat.add_mul]
              omega
            · omega
          · intro he0
            rw [hsvP, hxs, h1s, Nat.add_mul]
            rw [hcnt] at hhi
            omega
        · obtain ⟨y0, hy0, hys, hyal, hrest⟩ := hpg b x hold
          rw [hsvO b hyal hb]
          exact ⟨y0, hy0, hys, hyal, hrest⟩
      · intro a a0 ha0
        obtain ⟨y, hy⟩ := hper a a0 ha0
        by_cases hae : a = it.free
        · subst hae
          obtain ⟨x, hx, -⟩ := relink_hdr_page cx ip it it.free h1
          exact ⟨x, hcx ▸ hx⟩
        · refine ⟨y, ?_⟩
          rw [hcx, relink_hdr, if_neg hae]
          exact hy
      · intro j y x hy hx
        obtain ⟨x', hx', hxs⟩ := hsize _ _ hx
        rw [hcx] at hy
        rcases relink_item_cases hy with ⟨-, hyf, -, hyo⟩ | hold
        · rw [hyf, h1n] at hx'
          have := hsn _ _ _ hh hx'
          omega
        · have := hsf _ _ _ hold hx'
          omega
      · intro j y x hy hx
        obtain ⟨x', hx', hxs⟩ := hsize _ _ hx
        rw [hcx] at hy
        rcases relink_item_cases hy with ⟨-, -, hyu, hyo⟩ | hold
        · rw [hyu, hh] at hx'
          cases hx'
          omega
        · have := hsu _ _ _ hold hx'
          omega
      · intro b x x' hx hx'
        obtain ⟨y', hy', hys'⟩ := hsize _ _ hx'
        rw [hcx] at hx
        rcases relink_hdr_cases hx with ⟨hb, hxs, -, -, hnx | hnx⟩ | ⟨hb, hold⟩
        · rw [hnx, h1n] at hy'
          have := hsn _ _ _ hh hy'
          omega
        · rw [hnx] at hy'
          have := hsu _ _ _ hit hy'
          omega
        · have := hsn _ _ _ hold hy'
          omega


theorem malloc_seq_cons {cx cx' : bibop_cx} {s : Nat} {ss ps : List Nat}
    (hrun : malloc_seq cx (s :: ss) = .ok (ps, cx')) :
    ∃ p cx1 ps', bibop_malloc_cx cx s = .ok (p, cx1) ∧ malloc_seq cx1 ss = .ok (ps', cx') ∧
      ps = p :: ps' := by
  simp only [malloc_seq] at hrun
  split at hrun
  · cases hrun
  · rename_i p cx1 hm
    split at hrun
    · cases hrun
    · rename_i ps' cx2 hr
      simp only [Except.ok.injEq, Prod.mk.injEq] at hrun
      exact ⟨p, cx1, ps', hm, hrun.2 ▸ hr, hrun.1.symm⟩

theorem bump_inv_seq (sizes : List Nat) :
    ∀ {live ps : List Nat} {cx cx' : bibop_cx}, bump_inv live cx →
      malloc_seq cx sizes = .ok (ps, cx') →
      bump_inv ((ps.filter (fun p => decide (p ≠ 0))).reverse ++ live) cx' := by
  induction sizes with
  | nil =>
    intro live ps cx cx' hinv hrun
    simp only [malloc_seq, Except.ok.injEq, Prod.mk.injEq] at hrun
    obtain ⟨h1, h2⟩ := hrun
    subst h1 h2
    simpa using hinv
  | cons s ss ih =>
    intro live ps cx cx' hinv hrun
    obtain ⟨p, cx1, ps', hm, hr, hps⟩ := malloc_seq_cons hrun
    subst hps
    rcases bump_inv_step hinv hm with ⟨hp0, hcx⟩ | ⟨hpne, hinv1⟩
    · subst hp0 hcx
      have := ih hinv hr
      simpa using this
    · have := ih hinv1 hr
      rw [List.filter_cons_of_pos (by simpa using hpne)]
      simpa using this

theorem page_inv_seq {hs : Nat} {cx0 : bibop_cx} (sizes : List Nat) :
    ∀ {pre ps : List Nat} {cx cx' : bibop_cx}, page_inv hs cx0 pre cx →
      malloc_seq cx sizes = .ok (ps, cx') →
      page_inv hs cx0 (pre ++ ps) cx' ∧
        ∀ p ∈ ps, p ≠ 0 → ∃ a h0, cx0.hdr a = some h0 ∧ a % 4096 = 0 ∧ a ≤ p ∧ hs ≤ p - a ∧
          (p - a) + h0.size ≤ 4096 := by
  induction sizes with
  | nil =>
    intro pre ps cx cx' hinv hrun
    simp only [malloc_seq, Except.ok.injEq, Prod.mk.injEq] at hrun
    obtain ⟨h1, h2⟩ := hrun
    subst h1 h2
    exact ⟨by simpa using hinv, fun p hp => absurd hp (List.not_mem_nil p)⟩
  | cons s ss ih =>
    intro pre ps cx cx' hinv hrun
    obtain ⟨p, cx1, ps', hm, hr, hps⟩ := malloc_seq_cons hrun
    subst hps
    obtain ⟨hinv1, hp⟩ := page_inv_step hinv hm
    obtain ⟨hinv2, hps'⟩ := ih hinv1 hr
    refine ⟨by simpa using hinv2, ?_⟩
    intro q hq
    rcases List.mem_cons.mp hq with hqp | hql
    · exact hqp ▸ hp
    · exact hps' q hql

theorem mk_cx_hdr {mx : Nat} {it : bibop_free_item} {hd h : bibop_page_header} {a : Nat}
    (hh : (mk_cx mx it hd).hdr a = some h) : a = 4096 ∧ h = hd := by
  simp only [mk_cx] at hh
  split at hh
  · rename_i ha
    simp only [Option.some.injEq] at hh
    exact ⟨ha, hh.symm⟩
  · cases hh

theorem mk_cx_item {mx : Nat} {it it' : bibop_free_item} {hd : bibop_page_header} {a : Nat}
    (hh : (mk_cx mx it hd).item a = some it') : a = 100 ∧ it' = it := by
  simp only [mk_cx] at hh
  split at hh
  · rename_i ha
    simp only [Option.some.injEq] at hh
    exact ⟨ha, hh.symm⟩
  · cases hh

theorem fresh_cx_fresh_pages (mx c inc : Nat) (h1 : 0 < inc) (h2 : inc < 4096)
    (h3 : c ≤ 255) : fresh_pages (fresh_cx mx c inc) := by
  refine ⟨?_, ?_⟩
  · intro a h hh
    obtain ⟨ha, hd⟩ := mk_cx_hdr hh
    subst ha hd
    exact ⟨by decide, h1, h2, rfl⟩
  · intro ip it hit
    obtain ⟨-, hd⟩ := mk_cx_item hit
    subst hd
    exact h3

theorem fresh_cx_provider_init (hs mx c inc : Nat) (h1 : hs ≤ inc) (h2 : inc + c ≤ 4096)
    (h3 : c ≤ 255) : provider_init hs (fresh_cx mx c inc) := by
  refine ⟨?_, ?_, ?_, ?_⟩
  · intro a h hh
    obtain ⟨ha, hd⟩ := mk_cx_hdr hh
    subst ha hd
    exact ⟨by decide, h1, h2, rfl, h3⟩
  · intro ip it h hit hh
    obtain ⟨-, hd⟩ := mk_cx_item hit
    obtain ⟨-, hd'⟩ := mk_cx_hdr hh
    subst hd hd'
    rfl
  · intro ip it h hit hh
    obtain ⟨-, hd⟩ := mk_cx_item hit
    subst hd
    obtain ⟨ha, -⟩ := mk_cx_hdr hh
    cases ha
  · intro a h h' hh hh'
    obtain ⟨-, hd⟩ := mk_cx_hdr hh
    subst hd
    obtain ⟨ha, -⟩ := mk_cx_hdr hh'
    cases ha

/-! ## The bump region of one page -/

theorem carve_keeps_zero_cursor {cx : bibop_cx} {page : Nat} {h h1 : bibop_page_header}
    {size p : Nat} (hi : h.inc_off = 0)
    (hc : bibop_malloc_carve cx page h size = .ok (p, h1)) : h1.inc_off = 0 := by
  by_cases hf : h.free_off = 0
  · rw [carve_assert hi hf] at hc
    cases hc
  · rw [carve_recycle hi hf] at hc
    simp only [Except.ok.injEq, Prod.mk.injEq] at hc
    rw [← hc.2]
    exact hi

theorem bump_dead_step {cx cx' : bibop_cx} {page s p : Nat} (hd : bump_dead cx page)
    (hm : bibop_malloc_cx cx s = .ok (p, cx')) : bump_dead cx' page := by
  rcases malloc_ok_cases hm with ⟨-, hcx⟩ | ⟨ip, it, h, h1, -, -, -, -, hh, -, hcar, hcx⟩
  · exact hcx ▸ hd
  · obtain ⟨hp, hhp, hi⟩ := hd
    by_cases he : page = it.free
    · subst he
      rw [hh] at hhp
      cases hhp
      obtain ⟨x, hx, -, hxi, -⟩ := relink_hdr_page cx ip it it.free h1
      exact ⟨x, hcx ▸ hx, by rw [hxi]; exact carve_keeps_zero_cursor hi hcar⟩
    · refine ⟨hp, ?_, hi⟩
      rw [hcx, relink_hdr, if_neg he]
      exact hhp

theorem bump_dead_seq (sizes : List Nat) :
    ∀ {cx cx' : bibop_cx} {page : Nat} {ps : List Nat}, bump_dead cx page →
      malloc_seq cx sizes = .ok (ps, cx') → bump_dead cx' page := by
  induction sizes with
  | nil =>
    intro cx cx' page ps hd hrun
    simp only [malloc_seq, Except.ok.injEq, Prod.mk.injEq] at hrun
    exact hrun.2 ▸ hd
  | cons s ss ih =>
    intro cx cx' page ps hd hrun
    obtain ⟨p, cx1, ps', hm, hr, -⟩ := malloc_seq_cons hrun
    exact ih (bump_dead_step hd hm) hr

theorem bump_live_step {cx : bibop_cx} {s ip page c off : Nat}
    (hl : bump_live cx s ip page c off) (hp : page ≠ 0) (ho : off ≠ 0)
    (hw : off + c < 65536) :
    ∃ cx1, bibop_malloc_cx cx s = .ok (page + off, cx1) ∧
      (∀ h1, cx1.hdr page = some h1 → h1.free_off = 0) ∧
      ((off + 2 * c < 4096 ∧ bump_live cx1 s ip page c (off + c)) ∨
        (4096 ≤ off + 2 * c ∧ bump_dead cx1 page)) := by
  obtain ⟨hs, hip, hle, ⟨it, hit, hfree, hobj⟩, ⟨h, hh, hio, hfo⟩⟩ := hl
  subst hfree hobj hio
  have hcar := @carve_bump cx it.free h it.obj_size ho
  have hm := malloc_eq_of_head hs hip hit hp hh hle hcar
  obtain ⟨-, h1f, -, -, -, -, -, hcur⟩ := carve_bump_nowrap ho hw hcar
  refine ⟨_, hm, ?_, ?_⟩
  · intro x hx
    rcases relink_hdr_cases hx with ⟨-, -, -, hxf, -⟩ | ⟨hne, -⟩
    · omega
    · exact absurd rfl hne
  · obtain ⟨x, hx, -, hxi, hxf⟩ := relink_hdr_page cx ip it it.free
      { h with inc_off :=
          if (BIBOP_PAGE_SIZE : Int) - (((h.inc_off + it.obj_size) % 65536 : Nat) : Int)
            > (it.obj_size : Int)
          then (h.inc_off + it.obj_size) % 65536 else 0 }
    rcases hcur with ⟨hlt, he⟩ | ⟨hge, he⟩
    · left
      refine ⟨hlt, ?_, ?_, hle, ⟨it, ?_, rfl, rfl⟩, ⟨x, hx, by omega, by omega⟩⟩
      · rw [(relink_frame _ _ _ _ _).2.1]; exact hs
      · rw [(relink_frame _ _ _ _ _).1]; exact hip
      · rw [relink_item, if_neg (by omega)]
        exact hit
    · right
      exact ⟨hge, x, hx, by omega⟩

theorem bump_live_seq (s ip page c : Nat) (hp : page ≠ 0) (k : Nat) :
    ∀ (off : Nat) (cx : bibop_cx), bump_live cx s ip page c off → off ≠ 0 →
      off + c < 65536 →
      (∀ ps cxk hk, malloc_seq cx (List.replicate k s) = .ok (ps, cxk) →
        cxk.hdr page = some hk → hk.inc_off ≠ 0 →
        ps = (List.range k).map (fun j => page + off + j * c) ∧
          bump_live cxk s ip page c (off + k * c) ∧ (k = 0 ∨ off + (k + 1) * c < 4096)) ∧
      ((k = 0 ∨ off + (k + 1) * c < 4096) →
        ∃ ps cxk, malloc_seq cx (List.replicate k s) = .ok (ps, cxk) ∧
          bump_live cxk s ip page c (off + k * c)) := by
  induction k with
  | zero =>
    intro off cx hl ho hw
    refine ⟨?_, fun _ => ⟨[], cx, rfl, by simpa using hl⟩⟩
    intro ps cxk hk hrun hhk hne
    simp only [List.replicate, malloc_seq, Except.ok.injEq, Prod.mk.injEq] at hrun
    obtain ⟨h1, h2⟩ := hrun
    subst h1 h2
    exact ⟨rfl, by simpa using hl, Or.inl rfl⟩
  | succ k ih =>
    intro off cx hl ho hw
    obtain ⟨cx1, hm, -, hnext⟩ := bump_live_step hl hp ho hw
    have hmul : off + c + k * c = off + (k + 1) * c := by rw [Nat.succ_mul]; omega
    have hmul2 : (k + 1 + 1) * c = (k + 1) * c + c := Nat.succ_mul (k + 1) c
    have hmul1 : (k + 1) * c = k * c + c := Nat.succ_mul k c
    refine ⟨?_, ?_⟩
    · intro ps cxk hk hrun hhk hne
      rw [List.replicate_succ] at hrun
      obtain ⟨p, cx1', ps', hm', hr, hps⟩ := malloc_seq_cons hrun
      rw [hm] at hm'
      simp only [Except.ok.injEq, Prod.mk.injEq] at hm'
      obtain ⟨hp', hcx'⟩ := hm'
      subst hp' hcx' hps
      rcases hnext with ⟨hlt, hl1⟩ | ⟨-, hd⟩
      · obtain ⟨hps', hlk, hk'⟩ := (ih (off + c) cx1 hl1 (by omega) (by omega)).1 ps' cxk hk hr
          hhk hne
        refine ⟨?_, hmul ▸ hlk, Or.inr ?_⟩
        · rw [hps', List.range_succ_eq_map, List.map_cons, List.map_map]
          refine congrArg₂ _ (by simp) (List.map_congr_left ?_)
          intro j _
          simp only [Function.comp, Nat.succ_eq_add_one, Nat.succ_mul]
          omega
        · rcases hk' with hk0 | hk1
          · subst hk0
            omega
          · omega
      · obtain ⟨x, hx, hxi⟩ := bump_dead_seq _ hd hr
        rw [hhk] at hx
        cases hx
        exact absurd hxi hne
    · intro hcond
      have hlt : off + 2 * c < 4096 := by
        rcases hcond with h0 | h1
        · omega
        · have : c ≤ (k + 1) * c := Nat.le_mul_of_pos_left c (by omega)
          omega
      rcases hnext with ⟨-, hl1⟩ | ⟨hge, -⟩
      · have hcond' : k = 0 ∨ off + c + (k + 1) * c < 4096 := by
          rcases hcond with h0 | h1
          · omega
          · right; omega
        obtain ⟨ps', cxk, hr, hlk⟩ := (ih (off + c) cx1 hl1 (by omega) (by omega)).2 hcond'
        refine ⟨(page + off) :: ps', cxk, ?_, hmul ▸ hlk⟩
        rw [List.replicate_succ]
        simp only [malloc_seq, hm, hr]
      · omega

/-! ## The page pointer of `bibop_free_cx` -/

/-- Line 155 keeps the low 12 bits of the pointer. -/
theorem free_locate_eq_mod (ptr : Nat) : bibop_free_locate ptr = ptr % 4096 := by
  unfold bibop_free_locate BIBOP_PAGE_MASK
  exact Nat.and_pow_two_sub_one_eq_mod ptr 12

/-- In a context whose pages all start at non-zero multiples of 4096, `bibop_free_cx` gets stuck
on every pointer: the address that line 155 computes is below 4096 and no page lives there. -/
theorem free_cx_stuck (cx : bibop_cx) (ptr : Nat)
    (hpg : ∀ a h, cx.hdr a = some h → a % 4096 = 0 ∧ a ≠ 0) :
    bibop_free_cx cx ptr = .error .bad_access := by
  have hnone : cx.hdr (bibop_free_locate ptr) = none := by
    cases hh : cx.hdr (bibop_free_locate ptr) with
    | none => rfl
    | some h =>
      obtain ⟨h1, h2⟩ := hpg _ _ hh
      rw [free_locate_eq_mod] at h1 h2
      omega
  unfold bibop_free_cx bibop_free_page
  rw [hnone]

/-! ## Lemmas about the blocks of `bibop_free_cx` -/

theorem unlink_prev_byte {cx cx' : bibop_cx} {page : Nat}
    (h : bibop_free_unlink_prev cx page = .ok cx') : cx'.byte = cx.byte := by
  unfold bibop_free_unlink_prev at h
  split at h
  · cases h
  · split at h <;> simp only [Except.ok.injEq] at h <;> subst h <;> rfl

theorem unlink_next_byte {cx cx' : bibop_cx} {page : Nat}
    (h : bibop_free_unlink_next cx page = .ok cx') : cx'.byte = cx.byte := by
  unfold bibop_free_unlink_next at h
  split at h
  · cases h
  · split at h
    · split at h
      · cases h
      · simp only [Except.ok.injEq] at h
        subst h
        rfl
    · simp only [Except.ok.injEq] at h
      subst h
      rfl

theorem push_byte {cx cx' : bibop_cx} {ip page : Nat}
    (h : bibop_free_push cx ip page = .ok cx') : cx'.byte = cx.byte := by
  unfold bibop_free_push at h
  split at h
  · simp only at h
    split at h
    · split at h
      · cases h
      · simp only [Except.ok.injEq] at h
        subst h
        rfl
    · simp only [Except.ok.injEq] at h
      subst h
      rfl
  · cases h

/-- Lines 156-170 write object storage only through the 16-bit store of line 158. -/
theorem free_page_byte {cx cx' : bibop_cx} {ptr page : Nat}
    (h : bibop_free_page cx ptr page = .ok cx') :
    ∃ v, cx'.byte = (write16 cx ptr v).byte := by
  unfold bibop_free_page at h
  split at h
  · cases h
  · rename_i hd hh
    simp only at h
    split at h
    · split at h
      · cases h
      · split at h
        · cases h
        · rename_i cx3 h3
          split at h
          · cases h
          · rename_i cx4 h4
            refine ⟨hd.free_off, ?_⟩
            rw [push_byte h, unlink_next_byte h4, unlink_prev_byte h3]
            rfl
    · simp only [Except.ok.injEq] at h
      subst h
      exact ⟨hd.free_off, rfl⟩

theorem store_hdr_dom (cx : bibop_cx) (a : Nat) (h h0 : bibop_page_header)
    (ha : cx.hdr a = some h0) (b : Nat) :
    ((store_hdr cx a h).hdr b).isSome = (cx.hdr b).isSome := by
  simp only [store_hdr]
  split
  · rename_i hb
    rw [hb, ha]
    rfl
  · rfl

theorem unlink_prev_ok {cx : bibop_cx} {page : Nat} {h : bibop_page_header}
    (hh : cx.hdr page = some h) :
    ∃ cx' h', bibop_free_unlink_prev cx page = .ok cx' ∧ cx'.item = cx.item ∧
      cx'.free_list = cx.free_list ∧ (∀ b, (cx'.hdr b).isSome = (cx.hdr b).isSome) ∧
      cx'.hdr page = some h' ∧ h'.next = h.next := by
  unfold bibop_free_unlink_prev
  rw [hh]
  simp only
  split
  · refine ⟨_, { h with prev := h.next }, rfl, rfl, rfl, store_hdr_dom cx page _ h hh, ?_, rfl⟩
    simp [store_hdr]
  · exact ⟨cx, h, rfl, rfl, rfl, fun _ => rfl, hh, rfl⟩

theorem unlink_next_ok {cx : bibop_cx} {page : Nat} {h : bibop_page_header}
    (hh : cx.hdr page = some h) (hn : h.next = 0 ∨ (cx.hdr h.next).isSome = true) :
    ∃ cx', bibop_free_unlink_next cx page = .ok cx' ∧ cx'.item = cx.item ∧
      cx'.free_list = cx.free_list ∧ (∀ b, (cx'.hdr b).isSome = (cx.hdr b).isSome) := by
  unfold bibop_free_unlink_next
  rw [hh]
  simp only
  split
  · rename_i hne
    rcases hn with h0 | hs
    · exact absurd h0 hne
    · cases hq : cx.hdr h.next with
      | none => rw [hq] at hs; cases hs
      | some q =>
        exact ⟨_, rfl, rfl, rfl, store_hdr_dom cx h.next _ q hq⟩
  · exact ⟨cx, rfl, rfl, rfl, fun _ => rfl⟩

theorem push_ok {cx : bibop_cx} {ip page : Nat} {it : bibop_free_item}
    (hit : cx.item ip = some it) (hp : (cx.hdr page).isSome = true)
    (hf : it.free = 0 ∨ (cx.hdr it.free).isSome = true) :
    ∃ cx', bibop_free_push cx ip page = .ok cx' ∧
      cx'.item ip = some { it with free := page } ∧ (∀ j, j ≠ ip → cx'.item j = cx.item j) ∧
      cx'.free_list = cx.free_list := by
  cases hq : cx.hdr page with
  | none => rw [hq] at hp; cases hp
  | some q =>
    unfold bibop_free_push
    rw [hit, hq]
    simp only
    split
    · rename_i hne
      rcases hf with h0 | hs
      · exact absurd h0 hne
      · have hs' : ((store_hdr cx page { q with next := it.free }).hdr it.free).isSome = true := by
          rw [store_hdr_dom cx page _ q hq]
          exact hs
        cases hq2 : (store_hdr cx page { q with next := it.free }).hdr it.free with
        | none => rw [hq2] at hs'; cases hs'
        | some q2 =>
          refine ⟨_, rfl, ?_, ?_, rfl⟩
          · simp [store_item]
          · intro j hj
            simp [store_item, store_hdr, hj]
    · refine ⟨_, rfl, ?_, ?_, rfl⟩
      · simp [store_item]
      · intro j hj
        simp [store_item, store_hdr, hj]

/-- Lines 156-170 on a full page whose links are valid: the page becomes the head of the
free-page list of the class record at index `page->size`; other class records are unchanged. -/
theorem free_page_full_relinks {cx : bibop_cx} {ptr page ip : Nat} {h : bibop_page_header}
    {it : bibop_free_item} (hh : cx.hdr page = some h) (hi : h.inc_off = 0)
    (hf : h.free_off = 0) (hip : cx.free_list[h.size]? = some ip) (hit : cx.item ip = some it)
    (hn : h.next = 0 ∨ (cx.hdr h.next).isSome = true)
    (hfr : it.free = 0 ∨ (cx.hdr it.free).isSome = true) :
    ∃ cx', bibop_free_page cx ptr page = .ok cx' ∧
      cx'.item ip = some { it with free := page } ∧ (∀ j, j ≠ ip → cx'.item j = cx.item j) := by
  have hwf : (decide (0 = h.inc_off) && decide (0 = h.free_off)) = true := by
    simp [hi, hf]
  unfold bibop_free_page
  rw [hh]
  simp only []
  rw [if_pos hwf]
  have hcx2h : (store_hdr (write16 cx ptr h.free_off) page
      { h with free_off := (((ptr : Int) - (page : Int)) % 65536).toNat }).hdr page =
      some { h with free_off := (((ptr : Int) - (page : Int)) % 65536).toNat } := by
    simp [store_hdr]
  have hdom2 : ∀ b, ((store_hdr (write16 cx ptr h.free_off) page
      { h with free_off := (((ptr : Int) - (page : Int)) % 65536).toNat }).hdr b).isSome =
      (cx.hdr b).isSome := fun b => store_hdr_dom (write16 cx ptr h.free_off) page _ h hh b
  have hfl : (store_hdr (write16 cx ptr h.free_off) page
      { h with free_off := (((ptr : Int) - (page : Int)) % 65536).toNat }).free_list[h.size]? =
      some ip := hip
  have hitm : (store_hdr (write16 cx ptr h.free_off) page
      { h with free_off := (((ptr : Int) - (page : Int)) % 65536).toNat }).item = cx.item := rfl
  generalize store_hdr (write16 cx ptr h.free_off) page
      { h with free_off := (((ptr : Int) - (page : Int)) % 65536).toNat } = cx2 at *
  rw [hfl]
  simp only
  obtain ⟨cx3, h3, e3, i3, f3, d3, hh3, n3⟩ := unlink_prev_ok hcx2h
  rw [e3]
  simp only
  obtain ⟨cx4, e4, i4, f4, d4⟩ := unlink_next_ok hh3 (by
    rw [n3]
    rcases hn with h0 | hs
    · exact Or.inl h0
    · right
      rw [d3, hdom2]
      exact hs)
  rw [e4]
  simp only
  have hit4 : cx4.item ip = some it := by rw [i4, i3, hitm]; exact hit
  obtain ⟨cx5, e5, i5, j5, -⟩ := push_ok hit4 (by rw [d4, d3, hdom2, hh]; rfl) (by
    rcases hfr with h0 | hs
    · exact Or.inl h0
    · right
      rw [d4, d3, hdom2]
      exact hs)
  refine ⟨cx5, e5, i5, ?_⟩
  intro j hj
  rw [j5 j hj, i4, i3, hitm]

/-! ## The example contexts -/

theorem lookup_mem {α : Type} (a : Nat) (b : α) (l : List (Nat × α))
    (h : l.lookup a = some b) : (a, b) ∈ l := by
  induction l with
  | nil => simp [List.lookup] at h
  | cons x l ih =>
    obtain ⟨k, v⟩ := x
    simp only [List.lookup] at h
    split at h
    · rename_i heq
      simp only [Option.some.injEq] at h
      have : a = k := by simpa using heq
      subst this h
      exact List.mem_cons_self _ _
    · exact List.mem_cons_of_mem _ (ih h)

theorem two_class_sizes_ok : class_sizes_ok two_class_cx := by
  refine ⟨rfl, ?_⟩
  intro s ip it h1 h2
  have hmem := lookup_mem ip it _ h2
  simp only [List.mem_cons, Prod.mk.injEq, List.mem_singleton, List.not_mem_nil, or_false] at hmem
  simp only [two_class_cx, tab_cx, List.getElem?_append, List.length_replicate,
    List.getElem?_replicate] at h1
  split at h1
  · simp only [Option.some.injEq] at h1
    rcases hmem with ⟨-, h⟩ | ⟨h, -⟩
    · subst h
      show s ≤ 16
      omega
    · omega
  · split at h1
    · simp only [Option.some.injEq] at h1
      rcases hmem with ⟨h, -⟩ | ⟨-, h⟩
      · omega
      · subst h
        show s ≤ 32
        omega
    · cases h1

/-! ## Free-page lists -/

theorem is_list_congr {cx cx' : bibop_cx} (l : List Nat) :
    ∀ head, (∀ a ∈ l, ∀ h, cx.hdr a = some h → ∃ h', cx'.hdr a = some h' ∧ h'.next = h.next) →
      is_list cx head l → is_list cx' head l := by
  induction l with
  | nil => intro head _ h; exact h
  | cons a l ih =>
    intro head hc hl
    obtain ⟨h1, h2, h, hh, hrest⟩ := hl
    obtain ⟨h', hh', hn⟩ := hc a (List.mem_cons_self _ _) h hh
    refine ⟨h1, h2, h', hh', ?_⟩
    rw [hn]
    exact ih _ (fun b hb => hc b (List.mem_cons_of_mem _ hb)) hrest

theorem is_list_head {cx : bibop_cx} {a : Nat} {l : List Nat} (hl : is_list cx a l)
    (ha : a ≠ 0) :
    ∃ l' h, l = a :: l' ∧ cx.hdr a = some h ∧ is_list cx h.next l' := by
  cases l with
  | nil => exact absurd hl ha
  | cons b l' =>
    obtain ⟨h1, -, h, hh, hrest⟩ := hl
    subst h1
    exact ⟨l', h, rfl, hh, hrest⟩

theorem malloc_assert_cases {cx : bibop_cx} {s : Nat}
    (hm : bibop_malloc_cx cx s = .error .assert_fail) :
    ∃ ip it h, cx.free_list[s]? = some ip ∧ cx.item ip = some it ∧ it.free ≠ 0 ∧
      cx.hdr it.free = some h ∧ (¬ s ≤ it.obj_size ∨ (h.inc_off = 0 ∧ h.free_off = 0)) := by
  unfold bibop_malloc_cx at hm
  split at hm
  · cases hm
  · split at hm
    · cases hm
    · rename_i ip hip
      split at hm
      · cases hm
      · rename_i it hit
        split at hm
        · cases hm
        · rename_i hfree
          simp only at hm
          split at hm
          · cases hm
          · rename_i h hh
            refine ⟨ip, it, h, hip, hit, hfree, hh, ?_⟩
            split at hm
            · rename_i hle
              exact Or.inl hle
            · right
              split at hm
              · rename_i e hc
                unfold bibop_malloc_carve at hc
                split at hc
                · cases hc
                · split at hc
                  · rename_i hi hf
                    exact ⟨by simpa using hi, hf⟩
                  · cases hc
              · cases hm

theorem carve_fields {cx : bibop_cx} {page : Nat} {h h1 : bibop_page_header} {size p : Nat}
    (hcar : bibop_malloc_carve cx page h size = .ok (p, h1)) :
    h1.next = h.next ∧ h1.prev = h.prev ∧ h1.size = h.size ∧ h1.top_index = h.top_index ∧
      h1.sub_index = h.sub_index := by
  unfold bibop_malloc_carve at hcar
  split at hcar
  · simp only [Except.ok.injEq, Prod.mk.injEq] at hcar
    rw [← hcar.2]
    exact ⟨rfl, rfl, rfl, rfl, rfl⟩
  · split at hcar
    · cases hcar
    · simp only [Except.ok.injEq, Prod.mk.injEq] at hcar
      rw [← hcar.2]
      exact ⟨rfl, rfl, rfl, rfl, rfl⟩

theorem free_lists_ok_step {cx cx' : bibop_cx} {L : Nat → List Nat} {s p : Nat}
    (hok : free_lists_ok cx L) (hm : bibop_malloc_cx cx s = .ok (p, cx')) :
    ∃ L', free_lists_ok cx' L' := by
  rcases malloc_ok_cases hm with ⟨-, hcx⟩ |
    ⟨ip, it, h, h1, hs, hip, hit, hfree, hh, hle, hcar, hcx⟩
  · exact ⟨L, hcx ▸ hok⟩
  · obtain ⟨hrec, hdis⟩ := hok
    obtain ⟨hl, hnd, hsp⟩ := hrec ip it hit
    obtain ⟨tail, h0, hL, hh0, htail⟩ := is_list_head hl hfree
    rw [hh] at hh0
    cases hh0
    have hnext := (carve_fields hcar).1
    rw [hL] at hnd
    have hPtail : it.free ∉ tail := (List.nodup_cons.mp hnd).1
    have hndt : tail.Nodup := (List.nodup_cons.mp hnd).2
    have hother : ∀ b, b ≠ it.free → cx'.hdr b = cx.hdr b := by
      intro b hb
      rw [hcx, relink_hdr, if_neg hb]
    have hspare_other : ∀ b, b ≠ it.free → spare cx b → spare cx' b := by
      intro b hb ⟨x, hx, hc⟩
      exact ⟨x, by rw [hother b hb]; exact hx, hc⟩
    have hcongr_other : ∀ l : List Nat, it.free ∉ l →
        ∀ a ∈ l, ∀ x, cx.hdr a = some x → ∃ x', cx'.hdr a = some x' ∧ x'.next = x.next := by
      intro l hl a ha x hx
      have : a ≠ it.free := fun hc => hl (hc ▸ ha)
      exact ⟨x, by rw [hother a this]; exact hx, rfl⟩
    by_cases hz : h1.free_off = 0 ∧ h1.inc_off = 0
    · refine ⟨fun j => if j = ip then tail else L j, ?_, ?_⟩
      · intro j y hy
        rw [hcx, relink_item] at hy
        by_cases hj : j = ip
        · subst hj
          rw [if_pos ⟨rfl, hz⟩] at hy
          simp only [Option.some.injEq] at hy
          subst hy
          simp only [if_true]
          refine ⟨?_, hndt, ?_⟩
          · rw [hnext]
            exact is_list_congr tail _ (hcongr_other tail hPtail) htail
          · intro a ha
            have hne : a ≠ it.free := fun hc => hPtail (hc ▸ ha)
            exact hspare_other a hne (hsp a (by rw [hL]; exact List.mem_cons_of_mem _ ha))
        · rw [if_neg (fun hc => hj hc.1)] at hy
          simp only [if_neg hj]
          obtain ⟨hl', hnd', hsp'⟩ := hrec j y hy
          have hPj : it.free ∉ L j := by
            intro hc
            exact hdis ip j it y hit hy (fun e => hj e.symm) it.free
              (by rw [hL]; exact List.mem_cons_self _ _) hc
          refine ⟨is_list_congr (L j) _ (hcongr_other (L j) hPj) hl', hnd', ?_⟩
          intro a ha
          exact hspare_other a (fun hc => hPj (hc ▸ ha)) (hsp' a ha)
      · intro i j y z hy hz' hij a ha
        have hyold : ∃ y0, cx.item i = some y0 := by
          rw [hcx, relink_item] at hy
          split at hy
          · rename_i hc
            exact ⟨it, hc.1 ▸ hit⟩
          · exact ⟨y, hy⟩
        have hzold : ∃ z0, cx.item j = some z0 := by
          rw [hcx, relink_item] at hz'
          split at hz'
          · rename_i hc
            exact ⟨it, hc.1 ▸ hit⟩
          · exact ⟨z, hz'⟩
        obtain ⟨y0, hy0⟩ := hyold
        obtain ⟨z0, hz0⟩ := hzold
        have hsubi : ∀ b, b ∈ (if i = ip then tail else L i) → b ∈ L i := by
          intro b hb
          by_cases hi : i = ip
          · rw [if_pos hi] at hb
            rw [hi, hL]
            exact List.mem_cons_of_mem _ hb
          · rw [if_neg hi] at hb
            exact hb
        have hsubj : ∀ b, b ∈ (if j = ip then tail else L j) → b ∈ L j := by
          intro b hb
          by_cases hi : j = ip
          · rw [if_pos hi] at hb
            rw [hi, hL]
            exact List.mem_cons_of_mem _ hb
          · rw [if_neg hi] at hb
            exact hb
        intro hc
        exact hdis i j y0 z0 hy0 hz0 hij a (hsubi a ha) (hsubj a hc)
    · have hitem : ∀ j, cx'.item j = cx.item j := by
        intro j
        rw [hcx, relink_item, if_neg (fun hc => hz hc.2)]
      have hP : cx'.hdr it.free = some h1 := by
        rw [hcx, relink_hdr, if_pos rfl, if_neg hz]
      have hcongr : ∀ l : List Nat, ∀ a ∈ l, ∀ x, cx.hdr a = some x →
          ∃ x', cx'.hdr a = some x' ∧ x'.next = x.next := by
        intro l a _ x hx
        by_cases ha : a = it.free
        · subst ha
          rw [hh] at hx
          cases hx
          exact ⟨h1, hP, hnext⟩
        · exact ⟨x, by rw [hother a ha]; exact hx, rfl⟩
      have hspare : ∀ a, spare cx a → spare cx' a := by
        intro a hsa
        by_cases ha : a = it.free
        · subst ha
          refine ⟨h1, hP, ?_⟩
          by_cases hi : h1.inc_off = 0
          · right
            exact fun hc => hz ⟨hc, hi⟩
          · exact Or.inl hi
        · exact hspare_other a ha hsa
      refine ⟨L, ?_, ?_⟩
      · intro j y hy
        rw [hitem] at hy
        obtain ⟨hl', hnd', hsp'⟩ := hrec j y hy
        exact ⟨is_list_congr (L j) _ (hcongr (L j)) hl', hnd', fun a ha => hspare a (hsp' a ha)⟩
      · intro i j y z hy hz'
        rw [hitem] at hy hz'
        exact hdis i j y z hy hz'

theorem fresh_cx_free_lists_ok (mx c inc : Nat) (hinc : inc ≠ 0) :
    free_lists_ok (fresh_cx mx c inc) (fun j => if j = 100 then [4096] else []) := by
  refine ⟨?_, ?_⟩
  · intro ip it hit
    obtain ⟨hip, hd⟩ := mk_cx_item hit
    subst hip hd
    refine ⟨⟨rfl, by decide, ⟨0, 0, inc, 0, 0, 0, c⟩, rfl, rfl⟩, by simp, ?_⟩
    intro a ha
    simp only [if_true, List.mem_singleton] at ha
    subst ha
    exact ⟨⟨0, 0, inc, 0, 0, 0, c⟩, rfl, Or.inl hinc⟩
  · intro ip jp it jt hit hjt hne
    obtain ⟨hip, -⟩ := mk_cx_item hit
    obtain ⟨hjp, -⟩ := mk_cx_item hjt
    exact absurd (hip.trans hjp.symm) hne

theorem fresh_cx_sizes (mx c inc : Nat) (hc : mx ≤ c + 1) :
    ∀ s ip it, (fresh_cx mx c inc).free_list[s]? = some ip →
      (fresh_cx mx c inc).item ip = some it → s ≤ it.obj_size := by
  intro s ip it h1 h2
  obtain ⟨-, hd⟩ := mk_cx_item h2
  subst hd
  have hs : s < mx := by
    by_contra hge
    have : (fresh_cx mx c inc).free_list[s]? = none :=
      List.getElem?_eq_none (by simpa [fresh_cx, mk_cx] using hge)
    rw [this] at h1
    cases h1
  show s ≤ c
  omega

/-! ## The 16-bit link of a freed slot -/

/-- The 16-bit read of line 140 returns what the 16-bit store of line 158 put there. -/
theorem read16_write16 (cx : bibop_cx) (ptr v : Nat) (hv : v < 65536) :
    read16 (write16 cx ptr v) ptr = v := by
  have h1 : ¬ (ptr + 1 = ptr) := by omega
  simp only [read16, write16, if_true, h1, if_false]
  omega

/-- The 16-bit read of two bytes that hold the low and the high byte of `v`. -/
theorem read16_bytes (cx : bibop_cx) (ptr v : Nat) (hv : v < 65536)
    (h0 : cx.byte ptr = v % 256) (h1 : cx.byte (ptr + 1) = v / 256) : read16 cx ptr = v := by
  simp only [read16]
  rw [h0, h1]
  omega

/-- For canonical size `c >= 2` lines 156-170, for whatever page pointer, change no byte of
object storage outside the slot `[ptr, ptr + c)`. -/
theorem free_page_byte_frame (cx : bibop_cx) (ptr c : Nat) (hc : 2 ≤ c) (page : Nat)
    (cx' : bibop_cx) (hf : bibop_free_page cx ptr page = .ok cx') (b : Nat)
    (hb : ¬ (ptr ≤ b ∧ b < ptr + c)) : cx'.byte b = cx.byte b := by
  obtain ⟨v, hv⟩ := free_page_byte hf
  rw [hv]
  simp only [write16]
  rw [if_neg (by omega), if_neg (by omega)]

/-! ## Shared pages -/

theorem free_lists_ok_spare {cx : bibop_cx} {L : Nat → List Nat} (h : free_lists_ok cx L) :
    free_pages_spare cx L :=
  fun ip it hit => ⟨(h.1 ip it hit).1, (h.1 ip it hit).2.2⟩

theorem shared_cx_spare : free_pages_spare shared_cx (fun _ => [4096]) := by
  intro ip it hit
  have hmem := lookup_mem ip it _ hit
  simp only [List.mem_cons, Prod.mk.injEq, List.mem_singleton, List.not_mem_nil, or_false] at hmem
  have hfree : it.free = 4096 := by
    rcases hmem with ⟨-, h⟩ | ⟨-, h⟩ <;> subst h <;> rfl
  rw [hfree]
  refine ⟨⟨rfl, by decide, ⟨0, 0, 4064, 0, 0, 0, 16⟩, rfl, rfl⟩, ?_⟩
  intro a ha
  simp only [List.mem_singleton] at ha
  subst ha
  exact ⟨⟨0, 0, 4064, 0, 0, 0, 16⟩, rfl, Or.inl (by decide)⟩

theorem shared_cx_sizes : ∀ s ip it, shared_cx.free_list[s]? = some ip →
    shared_cx.item ip = some it → s ≤ it.obj_size := by
  intro s ip it h1 h2
  have hmem := lookup_mem ip it _ h2
  simp only [List.mem_cons, Prod.mk.injEq, List.mem_singleton, List.not_mem_nil, or_false] at hmem
  have hobj : it.obj_size = 16 := by
    rcases hmem with ⟨-, h⟩ | ⟨-, h⟩ <;> subst h <;> rfl
  have hs : s < 17 := by
    by_contra hge
    have : shared_cx.free_list[s]? = none :=
      List.getElem?_eq_none (by simpa [shared_cx, tab_cx] using hge)
    rw [this] at h1
    cases h1
  omega

/-- A class record whose free-page list starts with a page without spare capacity: the pages
of the free-page lists do not all have spare capacity, whatever the lists are. -/
theorem no_spare_of_full_head {cx : bibop_cx} {ip : Nat} {it : bibop_free_item}
    {h : bibop_page_header} (hit : cx.item ip = some it) (hfree : it.free ≠ 0)
    (hh : cx.hdr it.free = some h) (hi : h.inc_off = 0) (hf : h.free_off = 0) :
    ¬ ∃ L, free_pages_spare cx L := by
  rintro ⟨L, hL⟩
  obtain ⟨hl, hsp⟩ := hL ip it hit
  obtain ⟨tail, h', hLe, hh', -⟩ := is_list_head hl hfree
  obtain ⟨x, hx, hc⟩ := hsp it.free (by rw [hLe]; exact List.mem_cons_self _ _)
  rw [hh] at hx
  cases hx
  rcases hc with hc | hc
  · exact hc hi
  · exact hc hf

/-! ## The class record of line 162 -/

/-- Line 162 on the owning page: let the class array have `max_size` entries, let `s` select the
class record `ip`, whose head page is stamped with the record's canonical size `c`, and let
`free_list[c]` be the record `ip` itself.  After a successful `bibop_malloc_cx(cx, s)` the
index `page.size` is in range, the record that line 162 selects for the owning page is `ip`,
and when the page is full (and its links point to pages) lines 156-170 run on the owning page
put it at the head of the free-page list of `ip` and leave every other record unchanged. -/
theorem free_class_same_record (cx cx1 : bibop_cx) (s p ip : Nat) (it : bibop_free_item)
    (h : bibop_page_header) (hlen : cx.free_list.length = cx.max_size)
    (hip : cx.free_list[s]? = some ip) (hit : cx.item ip = some it)
    (hh : cx.hdr it.free = some h) (hstamp : h.size = it.obj_size)
    (hfix : cx.free_list[it.obj_size]? = some ip)
    (hm : bibop_malloc_cx cx s = .ok (p, cx1)) (hp : p ≠ 0) :
    (∃ h1, cx1.hdr it.free = some h1 ∧ h1.size = it.obj_size ∧ h1.size < cx1.max_size) ∧
    bibop_free_class cx1 it.free = .ok ip ∧
    (∀ h1, cx1.hdr it.free = some h1 → h1.inc_off = 0 → h1.free_off = 0 →
      (it.full = 0 ∨ (cx.hdr it.full).isSome = true) →
      (h.next = 0 ∨ (cx.hdr h.next).isSome = true) →
      ∃ cx2 it2, bibop_free_page cx1 p it.free = .ok cx2 ∧ cx2.item ip = some it2 ∧
        it2.free = it.free ∧ ∀ j, j ≠ ip → cx2.item j = cx1.item j) := by
  rcases malloc_ok_cases hm with ⟨hp0, -⟩ |
    ⟨ip', it', h', h1, hs, hip', hit', hfree, hh', hle, hcar, hcx⟩
  · exact absurd hp0 hp
  · rw [hip] at hip'
    cases hip'
    rw [hit] at hit'
    cases hit'
    rw [hh] at hh'
    cases hh'
    have hfld : h1.size = h.size ∧ h1.next = h.next := by
      unfold bibop_malloc_carve at hcar
      split at hcar
      · simp only [Except.ok.injEq, Prod.mk.injEq] at hcar
        rw [← hcar.2]
        exact ⟨rfl, rfl⟩
      · split at hcar
        · cases hcar
        · simp only [Except.ok.injEq, Prod.mk.injEq] at hcar
          rw [← hcar.2]
          exact ⟨rfl, rfl⟩
    have hfl1 : cx1.free_list = cx.free_list := by rw [hcx]; exact (relink_frame _ _ _ _ _).1
    have hmx1 : cx1.max_size = cx.max_size := by rw [hcx]; exact (relink_frame _ _ _ _ _).2.1
    obtain ⟨x, hx, hxs, hxi, hxf⟩ := relink_hdr_page cx ip it it.free h1
    rw [← hcx] at hx
    have hrange : it.obj_size < cx.max_size := by
      rw [← hlen]
      by_contra hge
      rw [List.getElem?_eq_none (by omega)] at hfix
      cases hfix
    have hxsz : x.size = it.obj_size := by omega
    have hdom : ∀ b, (cx.hdr b).isSome = true → (cx1.hdr b).isSome = true := by
      intro b hb
      by_cases hbe : b = it.free
      · rw [hbe, hx]; rfl
      · rw [hcx, relink_hdr, if_neg hbe]; exact hb
    refine ⟨⟨x, hx, hxsz, by omega⟩, ?_, ?_⟩
    · unfold bibop_free_class
      rw [hx]
      simp only
      rw [hxsz, hfl1, hfix]
    · intro h1' hh1' hi0 hf0 hfull hnext
      rw [hx] at hh1'
      cases hh1'
      have hzero : h1.free_off = 0 ∧ h1.inc_off = 0 := ⟨by omega, by omega⟩
      have hit1 : cx1.item ip = some ⟨h1.next, it.free, it.obj_size⟩ := by
        rw [hcx, relink_item, if_pos ⟨rfl, hzero⟩]
      have hxn : x.next = it.full := by
        have hx' := hx
        rw [hcx, relink_hdr, if_pos rfl, if_pos hzero] at hx'
        simp only [Option.some.injEq] at hx'
        rw [← hx']
      obtain ⟨cx2, e2, i2, j2⟩ := @free_page_full_relinks cx1 p it.free ip x ⟨h1.next, it.free, it.obj_size⟩ hx hi0 hf0
        (by rw [hxsz, hfl1]; exact hfix) hit1
        (by
          rw [hxn]
          rcases hfull with h0 | hs
          · exact Or.inl h0
          · exact Or.inr (hdom _ hs))
        (by
          show h1.next = 0 ∨ _
          rw [hfld.2]
          rcases hnext with h0 | hs
          · exact Or.inl h0
          · exact Or.inr (hdom _ hs))
      exact ⟨cx2, _, e2, i2, rfl, j2⟩

/-- Line 162 on the owning page of `two_class_cx`: every canonical size is at least its index;
the page allocated through the record at 100 (sizes 0..15, canonical size 16) is stamped 16, and
`free_list[16]` is the record at 200.  Lines 156-170 run on the owning page put the page on the
free-page list of the record at 200, the record at 100 keeps it on its full-page list;
`bibop_free_cx` itself gets stuck on the address that line 155 computes and reaches no
record. -/
theorem free_class_other_record :
    class_sizes_ok two_class_cx ∧
      ∃ cx1, bibop_malloc_cx two_class_cx 8 = .ok (8160, cx1) ∧
        cx1.free_list[8]? = some 100 ∧ cx1.item 100 = some ⟨0, 4096, 16⟩ ∧
        bibop_free_cx cx1 8160 = .error .bad_access ∧
        bibop_free_class cx1 4096 = .ok 200 ∧
        ∃ cx2, bibop_free_page cx1 8160 4096 = .ok cx2 ∧
          cx2.item 100 = some ⟨0, 4096, 16⟩ ∧ cx2.item 200 = some ⟨4096, 0, 32⟩ :=
  ⟨two_class_sizes_ok, _, rfl, rfl, rfl, rfl, rfl, _, rfl, rfl, rfl⟩

/-! ## The claims -/

/-- C1: for every context and every requested size `s` with `max_size <= s`, `bibop_malloc_cx`
returns `NULL` and the context after the call is the context before it, whatever its free-page
lists hold. -/
theorem malloc_size_too_large (cx : bibop_cx) (s : Nat) (hs : cx.max_size ≤ s) :
    bibop_malloc_cx cx s = .ok (0, cx) := by
  unfold bibop_malloc_cx
  simp [hs]

/-- Witness of C1: size 64 in a context with `max_size = 64` and a fresh page on the free list. -/
theorem malloc_size_too_large_witness :
    (fresh_cx 64 16 32).max_size ≤ 64 ∧
      bibop_malloc_cx (fresh_cx 64 16 32) 64 = .ok (0, fresh_cx 64 16 32) :=
  ⟨by decide, malloc_size_too_large (fresh_cx 64 16 32) 64 (by decide)⟩

/-- C2: for every context and every size `s < max_size` whose class record has an empty
free-page list, `bibop_malloc_cx` returns `NULL` and the context after the call is the context
before it. -/
theorem malloc_out_of_pages (cx : bibop_cx) (s ip : Nat) (it : bibop_free_item)
    (hs : s < cx.max_size) (hip : cx.free_list[s]? = some ip) (hit : cx.item ip = some it)
    (hfree : it.free = 0) :
    bibop_malloc_cx cx s = .ok (0, cx) := by
  unfold bibop_malloc_cx
  simp [Nat.not_le.mpr hs, hip, hit, hfree]

/-- Witness of C2: size 8 in a context whose only page is on the full-page list. -/
theorem malloc_out_of_pages_witness :
    bibop_malloc_cx (mk_cx 64 ⟨0, 4096, 16⟩ ⟨0, 0, 0, 0, 0, 0, 16⟩) 8
      = .ok (0, mk_cx 64 ⟨0, 4096, 16⟩ ⟨0, 0, 0, 0, 0, 0, 16⟩) :=
  malloc_out_of_pages (mk_cx 64 ⟨0, 4096, 16⟩ ⟨0, 0, 0, 0, 0, 0, 16⟩) 8 100 ⟨0, 4096, 16⟩
    (by decide) (by decide) (by rfl) (by rfl)

/-- C3, as amended: for every well-formed context (4096-aligned pages, each with its bump cursor
at a non-zero offset inside the page and `free_off = 0`) in which every class record has
canonical size at least 1, and for every sequence of `bibop_malloc_cx` calls, the non-`NULL`
pointers returned are pairwise distinct: no call returns an address handed out before. -/
theorem malloc_seq_distinct (cx : bibop_cx) (hw : fresh_pages cx)
    (hc : ∀ ip it, cx.item ip = some it → 1 ≤ it.obj_size)
    (sizes ps : List Nat) (cx' : bibop_cx) (hrun : malloc_seq cx sizes = .ok (ps, cx')) :
    (ps.filter (fun p => decide (p ≠ 0))).Nodup := by
  have hinv : bump_inv [] cx := by
    refine ⟨?_, ?_, ?_, List.nodup_nil⟩
    · intro a h hh
      obtain ⟨h1, -, h3, h4⟩ := hw.1 a h hh
      exact ⟨h1, h3, h4⟩
    · intro ip it hit
      exact ⟨hc ip it hit, hw.2 ip it hit⟩
    · intro q hq
      exact absurd hq (List.not_mem_nil q)
  have := (bump_inv_seq sizes hinv hrun).2.2.2
  simpa using this

/-- Witness of C3 as amended: three allocations of size 8 from a fresh page of canonical size
16. -/
theorem malloc_seq_distinct_witness :
    fresh_pages (fresh_cx 64 16 32) ∧
      (∃ cx', malloc_seq (fresh_cx 64 16 32) [8, 8, 8] = .ok ([4128, 4144, 4160], cx')) ∧
      ([4128, 4144, 4160].filter (fun p => decide (p ≠ 0))).Nodup :=
  ⟨fresh_cx_fresh_pages 64 16 32 (by decide) (by decide) (by decide), ⟨_, rfl⟩,
    malloc_seq_distinct (fresh_cx 64 16 32)
      (fresh_cx_fresh_pages 64 16 32 (by decide) (by decide) (by decide))
      (fun ip it hit => by
        obtain ⟨-, hd⟩ := mk_cx_item hit
        subst hd
        decide)
      [8, 8, 8] [4128, 4144, 4160] _ rfl⟩

/-- C3 as stated fails: in the well-formed context whose fresh page has canonical size 0, two
calls for size 0 both return 4128 (line 136 leaves the bump cursor where it is), so two live
pointers coincide; and a call sequence with a `bibop_free_cx` of a live pointer does not run,
the call gets stuck on the address that line 155 takes for the page. -/
theorem malloc_repeats_pointer_size_zero :
    fresh_pages (fresh_cx 64 0 32) ∧
      (∃ cx', malloc_seq (fresh_cx 64 0 32) [0, 0] = .ok ([4128, 4128], cx')) ∧
      ¬ ([4128, 4128].filter (fun p => decide (p ≠ 0))).Nodup ∧
      (∃ cx1, bibop_malloc_cx (fresh_cx 64 16 32) 8 = .ok (4128, cx1) ∧
        bibop_free_cx cx1 4128 = .error .bad_access) :=
  ⟨fresh_cx_fresh_pages 64 0 32 (by decide) (by decide) (by decide), ⟨_, rfl⟩, by decide,
    ⟨_, rfl, rfl⟩⟩

/-- C4, the code at a failing input: two allocations of size 8 fill the page at 4096 (canonical
size 16, bump cursor 4048) and move it to the full-page list.  `bibop_free_cx` on the live
pointer 8144 then takes the address 4048 for the page and gets stuck on it, so nothing is
relinked and nothing is recycled.  Lines 156-170 run on the owning page 4096 do put the page
back on the free-page list, and the next allocation returns 8144. -/
theorem free_then_malloc_stuck :
    ∃ cx1, malloc_seq (fresh_cx 64 16 4048) [8, 8] = .ok ([8144, 8160], cx1) ∧
      cx1.item 100 = some ⟨0, 4096, 16⟩ ∧
      cx1.hdr 4096 = some ⟨0, 0, 0, 0, 0, 0, 16⟩ ∧
      bibop_free_locate 8144 = 4048 ∧
      bibop_free_cx cx1 8144 = .error .bad_access ∧
      ∃ cx2, bibop_free_page cx1 8144 4096 = .ok cx2 ∧
        cx2.item 100 = some ⟨4096, 4096, 16⟩ ∧
        ret_ptr (bibop_malloc_cx cx2 8) = some 8144 :=
  ⟨_, rfl, rfl, rfl, by decide, rfl, _, rfl, rfl, rfl⟩

/-- C5, the code at a failing input: the page pointer that line 155 computes from `p` is
`p mod 4096`, the low 12 bits of `p`, and the offset that line 157 derives is
`(p - p mod 4096) mod 65536`; for the pointer 4128 of the page at 4096 they are 32 and 4096,
where the claim has 4096 and 32. -/
theorem free_locate_low_bits :
    (∀ p : Nat, bibop_free_locate p = p % 4096 ∧
        bibop_free_offset p = (p - p % 4096) % 65536) ∧
      bibop_free_locate 4128 = 32 ∧ bibop_free_offset 4128 = 4096 := by
  refine ⟨fun p => ?_, by decide, by decide⟩
  have h1 : bibop_free_locate p = p % 4096 := by
    unfold bibop_free_locate BIBOP_PAGE_MASK
    exact Nat.and_pow_two_sub_one_eq_mod p 12
  refine ⟨h1, ?_⟩
  unfold bibop_free_offset
  rw [h1]
  omega

/-- C7: for every context and every page (a pointer at which a page header `h` lives),
`bibop_page_belongs` returns a boolean that is true if and only if `h.top_index < top_size`,
`h.sub_index < sub_size` and the ownership table entry at `[top_index][sub_index]` is that page;
the context after the call is the context before it. -/
theorem page_belongs_iff (cx : bibop_cx) (page : Nat) (h : bibop_page_header)
    (hh : cx.hdr page = some h) :
    ∃ b : Bool, bibop_page_belongs cx page = .ok (b, cx) ∧
      (b = true ↔ (h.top_index < cx.top_size ∧ h.sub_index < cx.sub_size ∧
        pages_entry cx h.top_index h.sub_index = some page)) := by
  unfold bibop_page_belongs pages_entry
  simp only [hh]
  refine ⟨_, rfl, ?_⟩
  cases hp : cx.pages h.top_index with
  | none => simp
  | some row =>
    simp only [Bool.and_eq_true, decide_eq_true_eq, Option.some.injEq]
    exact ⟨fun ⟨a, b, c⟩ => ⟨a, b, c.symm⟩, fun ⟨a, b, c⟩ => ⟨a, b, c.symm⟩⟩

/-- Witness of C7: the page at 4096 of a context whose table entry `[0][0]` is 4096. -/
theorem page_belongs_iff_witness :
    ∃ b : Bool, bibop_page_belongs (fresh_cx 64 16 32) 4096 = .ok (b, fresh_cx 64 16 32) ∧
      (b = true ↔ ((0 : Nat) < (fresh_cx 64 16 32).top_size ∧
        (0 : Nat) < (fresh_cx 64 16 32).sub_size ∧
        pages_entry (fresh_cx 64 16 32) 0 0 = some 4096)) :=
  page_belongs_iff (fresh_cx 64 16 32) 4096 ⟨0, 0, 32, 0, 0, 0, 16⟩ rfl

/-- C8: let the page `page` be freshly provided (bump cursor `h`, a non-zero offset with
`h + c` representable in 16 bits, and `free_off = 0`) and be the head of the free-page list of
the class record that serves size `s`, with canonical size `c >= 1`.  Then (1) for every `k`
with `k = 0` or `h + (k + 1) * c < 4096` the first `k` calls for size `s` all return and leave
the page at the head of the list with cursor `h + k * c`; and (2) whenever the page's cursor is
non-zero after `k` calls, these calls returned `page + h, page + h + c, ...,
page + h + (k - 1) * c`, a strictly increasing list, the cursor is `h + k * c`, and the next
call returns `page + h + k * c` and leaves `free_off = 0`: nothing is served from the page's
internal free list. -/
theorem bump_order (cx : bibop_cx) (s ip page c h : Nat)
    (hl : bump_live cx s ip page c h) (hp : page ≠ 0) (hh : h ≠ 0) (hc : 1 ≤ c)
    (hw : h + c < 65536) :
    (∀ k, (k = 0 ∨ h + (k + 1) * c < 4096) →
      ∃ ps cxk, malloc_seq cx (List.replicate k s) = .ok (ps, cxk) ∧
        bump_live cxk s ip page c (h + k * c)) ∧
    (∀ k ps cxk hk, malloc_seq cx (List.replicate k s) = .ok (ps, cxk) →
      cxk.hdr page = some hk → hk.inc_off ≠ 0 →
      ps = (List.range k).map (fun j => page + h + j * c) ∧
        ps.Pairwise (fun p q => p < q) ∧
        hk.inc_off = h + k * c ∧ hk.free_off = 0 ∧
        ∃ cx', bibop_malloc_cx cxk s = .ok (page + h + k * c, cx') ∧
          ∀ h', cx'.hdr page = some h' → h'.free_off = 0) := by
  refine ⟨fun k hk => (bump_live_seq s ip page c hp k h cx hl hh hw).2 hk, ?_⟩
  intro k ps cxk hk hrun hhk hne
  obtain ⟨hps, hlk, hcond⟩ := (bump_live_seq s ip page c hp k h cx hl hh hw).1 ps cxk hk hrun
    hhk hne
  have hlk' := hlk
  obtain ⟨-, -, -, -, ⟨x, hx, hxi, hxf⟩⟩ := hlk'
  rw [hhk] at hx
  cases hx
  have hmul : (k + 1) * c = k * c + c := Nat.succ_mul k c
  have hw' : h + k * c + c < 65536 := by
    rcases hcond with h0 | h1
    · subst h0
      simpa using hw
    · omega
  obtain ⟨cx', hm, hfree, -⟩ := bump_live_step hlk hp (by omega) hw'
  refine ⟨hps, ?_, hxi, hxf, cx', by rw [← Nat.add_assoc] at hm; exact hm, hfree⟩
  rw [hps, List.pairwise_map]
  refine List.Pairwise.imp ?_ (List.pairwise_lt_range k)
  intro a b hab
  have : a * c < b * c := Nat.mul_lt_mul_of_pos_right hab (by omega)
  omega

/-- Witness of C8: three allocations of size 8 from a fresh page with cursor 32 and canonical
size 16. -/
theorem bump_order_witness :
    ∃ ps cxk, malloc_seq (fresh_cx 64 16 32) (List.replicate 3 8) = .ok (ps, cxk) ∧
      bump_live cxk 8 100 4096 16 (32 + 3 * 16) :=
  (bump_order (fresh_cx 64 16 32) 8 100 4096 16 32
    ⟨by decide, rfl, by decide, ⟨_, rfl, rfl, rfl⟩, ⟨_, rfl, rfl, rfl⟩⟩
    (by decide) (by decide) (by decide) (by decide)).1 3 (Or.inr (by decide))

/-- C9, as amended: for every context whose pages satisfy the provider's initial condition
(`hs <= inc_off`, `inc_off + c <= 4096`, `free_off = 0`) with canonical size `1 <= c <= 255`,
and every sequence of `bibop_malloc_cx` calls: each non-`NULL` pointer returned lies in a page
`a` of the context at an offset `o = p - a` with `hs <= o` and `o + c <= 4096`; in the context
after the calls the sum `inc_off + c` of the page at the head of any free-page list is below
65536, so the 16-bit addition on line 134 does not wrap; and the number of objects served from
a page is at most `(4096 - h) / c`, with `h` the page's initial bump cursor. -/
theorem malloc_seq_in_page (hs : Nat) (cx : bibop_cx) (hinit : provider_init hs cx)
    (hc : ∀ a h, cx.hdr a = some h → 1 ≤ h.size)
    (sizes ps : List Nat) (cx' : bibop_cx) (hrun : malloc_seq cx sizes = .ok (ps, cx')) :
    (∀ p ∈ ps, p ≠ 0 → ∃ a h0, cx.hdr a = some h0 ∧ a % 4096 = 0 ∧ a ≤ p ∧ hs ≤ p - a ∧
        (p - a) + h0.size ≤ 4096) ∧
      (∀ ip it h, cx'.item ip = some it → cx'.hdr it.free = some h →
        h.inc_off + it.obj_size < 65536) ∧
      (∀ a h0, cx.hdr a = some h0 → served a ps ≤ (4096 - h0.inc_off) / h0.size) := by
  obtain ⟨hpg, hsf, hsu, hsn⟩ := hinit
  have hinv : page_inv hs cx [] cx := by
    refine ⟨?_, fun a h0 h => ⟨h0, h⟩, hsf, hsu, hsn⟩
    intro a h hh
    obtain ⟨h1, h2, h3, h4, h5⟩ := hpg a h hh
    refine ⟨h, hh, rfl, h1, h4, hc a h hh, h5, h2, ?_, ?_⟩
    · intro _
      refine ⟨h2, h3, ?_⟩
      simp [served]
    · intro _
      simp only [served, List.filter_nil, List.length_nil, Nat.zero_mul]
      omega
  obtain ⟨⟨ipg, iper, isf, -, -⟩, hptr⟩ := page_inv_seq sizes hinv hrun
  rw [List.nil_append] at ipg
  refine ⟨hptr, ?_, ?_⟩
  · intro ip it h hit hh
    obtain ⟨h0, -, -, -, -, -, h255, -, hnz, -⟩ := ipg _ _ hh
    have hobj := isf _ _ _ hit hh
    by_cases hi : h.inc_off = 0
    · omega
    · have := (hnz hi).2.1
      omega
  · intro a h0 hh0
    obtain ⟨h, hh⟩ := iper a h0 hh0
    obtain ⟨h0', hh0', hsz, -, -, h1, -, -, hnz, hz⟩ := ipg _ _ hh
    rw [hh0] at hh0'
    cases hh0'
    rw [Nat.le_div_iff_mul_le (by omega)]
    by_cases hi : h.inc_off = 0
    · have := hz hi
      rw [hsz] at this
      omega
    · have := hnz hi
      rw [hsz] at this
      omega

/-- Witness of C9 as amended: three allocations of size 8 from a fresh page with cursor 32 and
canonical size 16. -/
theorem malloc_seq_in_page_witness :
    provider_init 32 (fresh_cx 64 16 32) ∧
      (∃ cx', malloc_seq (fresh_cx 64 16 32) [8, 8, 8] = .ok ([4128, 4144, 4160], cx')) ∧
      served 4096 [4128, 4144, 4160] ≤ (4096 - 32) / 16 :=
  ⟨fresh_cx_provider_init 32 64 16 32 (by decide) (by decide) (by decide), ⟨_, rfl⟩,
    (malloc_seq_in_page 32 (fresh_cx 64 16 32)
      (fresh_cx_provider_init 32 64 16 32 (by decide) (by decide) (by decide))
      (fun a h hh => by
        obtain ⟨-, hd⟩ := mk_cx_hdr hh
        subst hd
        decide)
      [8, 8, 8] [4128, 4144, 4160] _ rfl).2.2 4096 ⟨0, 0, 32, 0, 0, 0, 16⟩ rfl⟩

/-- C9 as stated fails: the context whose fresh page has canonical size 0 satisfies the
provider's initial condition with `c <= 255`, two calls for size 0 are both served from the page
at 4096, and the bound `(4096 - 32) / 0` is 0. -/
theorem served_exceeds_bound_size_zero :
    provider_init 32 (fresh_cx 64 0 32) ∧
      (∃ cx', malloc_seq (fresh_cx 64 0 32) [0, 0] = .ok ([4128, 4128], cx')) ∧
      ¬ (served 4096 [4128, 4128] ≤ (4096 - 32) / 0) :=
  ⟨fresh_cx_provider_init 32 64 0 32 (by decide) (by decide) (by decide), ⟨_, rfl⟩, by decide⟩

/-- C10, the code at a failing input: the page at 4096 has bump cursor 4064 and canonical size
16, so after advancing to 4080 exactly 16 bytes remain before the page boundary.  The call
returns 4096 + 4064 and resets the cursor to 0 (line 136 keeps the cursor only when strictly
more than 16 bytes remain); the page is full and the next call returns `NULL`: the slot at
offset 4080 is never served. -/
theorem bump_cursor_reset_at_exact_fit :
    ∃ cx1, bibop_malloc_cx (fresh_cx 64 16 4064) 8 = .ok (4096 + 4064, cx1) ∧
      ((4096 : Int) - (4064 + 16) ≥ 16) ∧
      cx1.hdr 4096 = some ⟨0, 0, 0, 0, 0, 0, 16⟩ ∧
      cx1.item 100 = some ⟨0, 4096, 16⟩ ∧
      ret_ptr (bibop_malloc_cx cx1 8) = some 0 :=
  ⟨_, rfl, by decide, rfl, rfl, rfl⟩

/-- C11: after a successful `bibop_malloc_cx` (a non-`NULL` pointer is returned) the page `P`
taken from the head of the free-page list of the class record selected by `s` is carved into the
header `h1`.  If `h1.inc_off` and `h1.free_off` are both 0, the record's free head becomes the
page's former successor, its full head becomes `P`, and `P.next` becomes the former full head.
Otherwise the class record is unchanged, `P` keeps the carved header, and the next call for `s`
is served from `P` again. -/
theorem malloc_move_to_full (cx cx' : bibop_cx) (s p : Nat)
    (hm : bibop_malloc_cx cx s = .ok (p, cx')) (hp : p ≠ 0) :
    ∃ ip it h h1, cx.free_list[s]? = some ip ∧ cx.item ip = some it ∧ it.free ≠ 0 ∧
      cx.hdr it.free = some h ∧
      bibop_malloc_carve cx it.free h it.obj_size = .ok (p, h1) ∧
      ((h1.inc_off = 0 ∧ h1.free_off = 0) →
        cx'.item ip = some ⟨h.next, it.free, it.obj_size⟩ ∧
        cx'.hdr it.free = some { h1 with next := it.full }) ∧
      (¬ (h1.inc_off = 0 ∧ h1.free_off = 0) →
        cx'.item ip = some it ∧ cx'.hdr it.free = some h1 ∧
        ∃ cx'', bibop_malloc_cx cx' s =
          .ok (it.free + (if h1.inc_off ≠ 0 then h1.inc_off else h1.free_off), cx'')) := by
  rcases malloc_ok_cases hm with ⟨hp0, -⟩ | ⟨ip, it, h, h1, hs, hip, hit, hfree, hh, hle, hcar, hcx⟩
  · exact absurd hp0 hp
  · have hnext : h1.next = h.next := by
      unfold bibop_malloc_carve at hcar
      split at hcar
      · simp only [Except.ok.injEq, Prod.mk.injEq] at hcar
        rw [← hcar.2]
      · split at hcar
        · cases hcar
        · simp only [Except.ok.injEq, Prod.mk.injEq] at hcar
          rw [← hcar.2]
    refine ⟨ip, it, h, h1, hip, hit, hfree, hh, hcar, ?_, ?_⟩
    · intro hz
      constructor
      · rw [hcx, relink_item, if_pos ⟨rfl, hz.2, hz.1⟩, hnext]
      · rw [hcx, relink_hdr, if_pos rfl, if_pos ⟨hz.2, hz.1⟩]
    · intro hnz
      have hnz' : ¬ (h1.free_off = 0 ∧ h1.inc_off = 0) := fun hc => hnz ⟨hc.2, hc.1⟩
      have hitem : cx'.item ip = some it := by
        rw [hcx, relink_item, if_neg (fun hc => hnz' hc.2)]
        exact hit
      have hhdr : cx'.hdr it.free = some h1 := by
        rw [hcx, relink_hdr, if_pos rfl, if_neg hnz']
      have hs' : s < cx'.max_size := by rw [hcx, (relink_frame _ _ _ _ _).2.1]; exact hs
      have hip' : cx'.free_list[s]? = some ip := by rw [hcx, (relink_frame _ _ _ _ _).1]; exact hip
      refine ⟨hitem, hhdr, ?_⟩
      by_cases hi : h1.inc_off = 0
      · have hf : h1.free_off ≠ 0 := fun hc => hnz ⟨hi, hc⟩
        rw [if_neg (by simpa using hi)]
        exact ⟨_, malloc_eq_of_head hs' hip' hitem hfree hhdr hle (carve_recycle hi hf)⟩
      · rw [if_pos hi]
        exact ⟨_, malloc_eq_of_head hs' hip' hitem hfree hhdr hle (carve_bump hi)⟩

/-- Witness of C11: the allocation that fills the page of `fresh_cx 64 16 4064`. -/
theorem malloc_move_to_full_witness :
    ∃ cx', bibop_malloc_cx (fresh_cx 64 16 4064) 8 = .ok (8160, cx') ∧
      ∃ ip it h h1, (fresh_cx 64 16 4064).free_list[8]? = some ip ∧
      (fresh_cx 64 16 4064).item ip = some it ∧ it.free ≠ 0 ∧
      (fresh_cx 64 16 4064).hdr it.free = some h ∧
      bibop_malloc_carve (fresh_cx 64 16 4064) it.free h it.obj_size = .ok (8160, h1) ∧
      ((h1.inc_off = 0 ∧ h1.free_off = 0) →
        cx'.item ip = some ⟨h.next, it.free, it.obj_size⟩ ∧
        cx'.hdr it.free = some { h1 with next := it.full }) ∧
      (¬ (h1.inc_off = 0 ∧ h1.free_off = 0) →
        cx'.item ip = some it ∧ cx'.hdr it.free = some h1 ∧
        ∃ cx'', bibop_malloc_cx cx' 8 =
          .ok (it.free + (if h1.inc_off ≠ 0 then h1.inc_off else h1.free_off), cx'')) :=
  ⟨_, rfl, malloc_move_to_full (fresh_cx 64 16 4064) _ 8 8160 rfl (by decide)⟩

/-- C12: for every page at the head of a class's free-page list with `inc_off = 0` and
`free_off = f != 0`, `bibop_malloc_cx` returns `page + f`, sets the page's `free_off` to the
16-bit offset stored in the first two bytes of the slot at offset `f` (low byte first: if the
two bytes hold the 16-bit value `v`, in particular if the 16-bit store of line 158 put `v`
there, the new `free_off` is `v`), and leaves `inc_off` at 0. -/
theorem malloc_recycle (cx : bibop_cx) (s ip f : Nat) (it : bibop_free_item)
    (h : bibop_page_header) (hs : s < cx.max_size) (hip : cx.free_list[s]? = some ip)
    (hit : cx.item ip = some it) (hfree : it.free ≠ 0) (hh : cx.hdr it.free = some h)
    (hle : s ≤ it.obj_size) (hi : h.inc_off = 0) (hf : h.free_off = f) (hf0 : f ≠ 0) :
    ∃ cx' h', bibop_malloc_cx cx s = .ok (it.free + f, cx') ∧ cx'.hdr it.free = some h' ∧
      h'.free_off = cx.byte (it.free + f) % 256 + 256 * (cx.byte (it.free + f + 1) % 256) ∧
      (∀ v, v < 65536 → cx.byte (it.free + f) = v % 256 → cx.byte (it.free + f + 1) = v / 256 →
        h'.free_off = v) ∧
      (∀ cx0 v, v < 65536 → cx.byte = (write16 cx0 (it.free + f) v).byte → h'.free_off = v) ∧
      h'.inc_off = 0 := by
  subst hf
  have hm := malloc_eq_of_head hs hip hit hfree hh hle (carve_recycle hi hf0)
  obtain ⟨x, hx, -, hxi, hxf⟩ := relink_hdr_page cx ip it it.free
    { h with free_off := read16 cx (it.free + h.free_off) }
  have hxf' : x.free_off = read16 cx (it.free + h.free_off) := hxf
  refine ⟨_, x, hm, hx, hxf', ?_, ?_, by rw [hxi]; exact hi⟩
  · intro v hv h0 h1
    rw [hxf']
    exact read16_bytes cx _ v hv h0 h1
  · intro cx0 v hv hb
    rw [hxf']
    have : read16 cx (it.free + h.free_off) = read16 (write16 cx0 (it.free + h.free_off) v)
        (it.free + h.free_off) := by
      simp only [read16, hb]
    rw [this]
    exact read16_write16 cx0 _ v hv

/-- Witness of C12: in `recycle_cx` the slot at offset 128 heads the internal free list and
its first two bytes hold 320; the call returns 4096 + 128 and the new `free_off` is 320. -/
theorem malloc_recycle_witness :
    ∃ cx' h', bibop_malloc_cx recycle_cx 8 = .ok (4096 + 128, cx') ∧
      cx'.hdr 4096 = some h' ∧ h'.free_off = 320 ∧ h'.inc_off = 0 := by
  obtain ⟨cx', h', hm, hh, -, hv, -, hi⟩ := malloc_recycle recycle_cx 8 100 128 ⟨4096, 0, 16⟩
    ⟨0, 0, 0, 128, 0, 0, 16⟩ (by decide) rfl rfl (by decide) rfl (by decide) rfl rfl (by decide)
  exact ⟨cx', h', hm, hh, hv 320 (by decide) rfl rfl, hi⟩

/-- C13, the code at a failing input: the page at 4096 has `inc_off = 0` and internal free-list
head 64, and 4096 + 128 is a live pointer of it.  `bibop_free_cx` takes the address 128 for the
page (line 155) and gets stuck on it: nothing is stored and `free_off` stays 64.  Lines 156-170
run on the owning page 4096 store 64 into the slot and set `free_off` to 128, leaving
`inc_off` as it was. -/
theorem free_push_stuck :
    bibop_free_locate (4096 + 128) = 128 ∧
      bibop_free_cx (mk_cx 64 ⟨4096, 0, 16⟩ ⟨0, 0, 0, 64, 0, 0, 16⟩) (4096 + 128)
        = .error .bad_access ∧
      ∃ cx', bibop_free_page (mk_cx 64 ⟨4096, 0, 16⟩ ⟨0, 0, 0, 64, 0, 0, 16⟩) (4096 + 128) 4096
          = .ok cx' ∧
        read16 cx' (4096 + 128) = 64 ∧ cx'.hdr 4096 = some ⟨0, 0, 0, 128, 0, 0, 16⟩ :=
  ⟨by decide, rfl, _, rfl, rfl, rfl⟩

/-- C14, the code at a failing input: three full pages 4096, 8192, 12288 are doubly linked on
the full-page list and 8256 is a live pointer of the middle page.  `bibop_free_cx` gets stuck on
the address that line 155 takes for the page.  Lines 156-170 run on the owning page 8192 put it
at the head of the free-page list but leave `item->full` and the `next` of 4096 as they were:
the full-page list is then 4096, 8192 (the page is still on it and 12288 is lost from it), and
12288 has become its own `prev`. -/
theorem free_unlink_middle :
    page_list full3_cx 8 4096 = [4096, 8192, 12288] ∧ page_list full3_cx 8 0 = [] ∧
      links_ok full3_cx 8 4096 = true ∧
      bibop_free_cx full3_cx 8256 = .error .bad_access ∧
      ∃ cx', bibop_free_page full3_cx 8256 8192 = .ok cx' ∧
        cx'.item 100 = some ⟨8192, 4096, 16⟩ ∧
        page_list cx' 8 4096 = [4096, 8192] ∧ page_list cx' 8 8192 = [8192] ∧
        cx'.hdr 12288 = some ⟨0, 12288, 0, 0, 0, 0, 16⟩ :=
  ⟨by decide, by decide, by decide, rfl, _, rfl, rfl, rfl, rfl, rfl⟩

/-- C15: a call `bibop_malloc_cx(cx, s)` that returns, with `ip` the class record selected by
`s` and `it.free` the head of its free-page list, leaves every other class record and every
other page header as they were, keeps the canonical size of the selected record and the fields
`prev`, `top_index`, `sub_index`, `size` of the head page, and leaves the ownership table,
`max_size`, `top_size`, `sub_size`, the class array and object storage unchanged. -/
theorem malloc_frame (cx cx' : bibop_cx) (s p ip : Nat) (it : bibop_free_item)
    (hm : bibop_malloc_cx cx s = .ok (p, cx'))
    (hip : cx.free_list[s]? = some ip) (hit : cx.item ip = some it) :
    (∀ j, j ≠ ip → cx'.item j = cx.item j) ∧
    (∀ b, b ≠ it.free → cx'.hdr b = cx.hdr b) ∧
    (∃ it', cx'.item ip = some it' ∧ it'.obj_size = it.obj_size) ∧
    (∀ h, cx.hdr it.free = some h → ∃ h', cx'.hdr it.free = some h' ∧ h'.prev = h.prev ∧
      h'.top_index = h.top_index ∧ h'.sub_index = h.sub_index ∧ h'.size = h.size) ∧
    cx'.pages = cx.pages ∧ cx'.max_size = cx.max_size ∧ cx'.top_size = cx.top_size ∧
    cx'.sub_size = cx.sub_size ∧ cx'.free_list = cx.free_list ∧ cx'.byte = cx.byte := by
  rcases malloc_ok_cases hm with ⟨-, hcx⟩ | ⟨ip', it', h, h1, hs, hip', hit', hfree, hh, hle, hcar, hcx⟩
  · subst hcx
    exact ⟨fun _ _ => rfl, fun _ _ => rfl, ⟨it, hit, rfl⟩, fun h hh => ⟨h, hh, rfl, rfl, rfl, rfl⟩,
      rfl, rfl, rfl, rfl, rfl, rfl⟩
  · rw [hip] at hip'
    cases hip'
    rw [hit] at hit'
    cases hit'
    have hfr := relink_frame cx ip it it.free h1
    have hfld : h1.prev = h.prev ∧ h1.top_index = h.top_index ∧ h1.sub_index = h.sub_index ∧
        h1.size = h.size := by
      unfold bibop_malloc_carve at hcar
      split at hcar
      · simp only [Except.ok.injEq, Prod.mk.injEq] at hcar
        rw [← hcar.2]
        exact ⟨rfl, rfl, rfl, rfl⟩
      · split at hcar
        · cases hcar
        · simp only [Except.ok.injEq, Prod.mk.injEq] at hcar
          rw [← hcar.2]
          exact ⟨rfl, rfl, rfl, rfl⟩
    subst hcx
    refine ⟨?_, ?_, ?_, ?_, hfr.2.2.2.1, hfr.2.1, hfr.2.2.2.2.1, hfr.2.2.2.2.2, hfr.1, hfr.2.2.1⟩
    · intro j hj
      rw [relink_item, if_neg (fun hc => hj hc.1)]
    · intro b hb
      rw [relink_hdr, if_neg hb]
    · rw [relink_item]
      split
      · exact ⟨_, rfl, rfl⟩
      · exact ⟨it, hit, rfl⟩
    · intro h' hh'
      rw [hh] at hh'
      cases hh'
      rw [relink_hdr, if_pos rfl]
      refine ⟨_, rfl, ?_⟩
      split <;> exact hfld

/-- Witness of C15: an allocation through the record at 100 of `two_class_cx` leaves the
record at 200, the table, `max_size` and the class array unchanged. -/
theorem malloc_frame_witness :
    ∃ cx', bibop_malloc_cx two_class_cx 8 = .ok (8160, cx') ∧
      cx'.item 200 = two_class_cx.item 200 ∧ cx'.pages = two_class_cx.pages ∧
      cx'.max_size = two_class_cx.max_size ∧ cx'.free_list = two_class_cx.free_list :=
  ⟨_, rfl,
    (malloc_frame two_class_cx _ 8 8160 100 ⟨4096, 0, 16⟩ rfl rfl rfl).1 200 (by decide),
    (malloc_frame two_class_cx _ 8 8160 100 ⟨4096, 0, 16⟩ rfl rfl rfl).2.2.2.2.1,
    (malloc_frame two_class_cx _ 8 8160 100 ⟨4096, 0, 16⟩ rfl rfl rfl).2.2.2.2.2.1,
    (malloc_frame two_class_cx _ 8 8160 100 ⟨4096, 0, 16⟩ rfl rfl rfl).2.2.2.2.2.2.2.2.1⟩

/-- C16 as stated fails: in `shared_cx` every page on every class's free-page list has spare
capacity and every canonical size is at least its index, but the one page is on the free-page
lists of both class records.  The call for size 0 fills the page through the record at 100;
the page stays at the head of the free-page list of the record at 200 without spare capacity,
so the condition is not preserved, and the next call, for size 8, fails the assertion
`free_off != 0` of line 138. -/
theorem malloc_fills_shared_page :
    free_pages_spare shared_cx (fun _ => [4096]) ∧
      (∀ s ip it, shared_cx.free_list[s]? = some ip → shared_cx.item ip = some it →
        s ≤ it.obj_size) ∧
      ∃ cx1, bibop_malloc_cx shared_cx 0 = .ok (8160, cx1) ∧
        cx1.free_list[8]? = some 200 ∧ cx1.item 200 = some ⟨4096, 0, 16⟩ ∧
        cx1.hdr 4096 = some ⟨0, 0, 0, 0, 0, 0, 16⟩ ∧
        (¬ ∃ L, free_pages_spare cx1 L) ∧
        bibop_malloc_cx cx1 8 = .error .assert_fail :=
  ⟨shared_cx_spare, shared_cx_sizes, _, rfl, rfl, rfl, rfl,
    @no_spare_of_full_head _ 200 ⟨4096, 0, 16⟩ ⟨0, 0, 0, 0, 0, 0, 16⟩ rfl (by decide) rfl
      rfl rfl, rfl⟩

/-- C16, as amended: if the free-page lists are `NULL`-terminated, without repetition and
pairwise disjoint between class records, every page on them has spare capacity
(`free_lists_ok`) and every class's canonical size is at least its index, then
`bibop_malloc_cx` does not fail an assertion, it returns whenever the class record selected by
`s` exists, and after it the same conditions hold again. -/
theorem malloc_asserts_hold (cx : bibop_cx) (L : Nat → List Nat) (s : Nat)
    (hok : free_lists_ok cx L)
    (hsz : ∀ s ip it, cx.free_list[s]? = some ip → cx.item ip = some it → s ≤ it.obj_size) :
    bibop_malloc_cx cx s ≠ .error .assert_fail ∧
    (∀ ip it, cx.free_list[s]? = some ip → cx.item ip = some it →
      ∃ p cx', bibop_malloc_cx cx s = .ok (p, cx')) ∧
    (∀ p cx', bibop_malloc_cx cx s = .ok (p, cx') →
      (∃ L', free_lists_ok cx' L') ∧
      (∀ s ip it, cx'.free_list[s]? = some ip → cx'.item ip = some it → s ≤ it.obj_size)) := by
  have hhead : ∀ ip it, cx.item ip = some it → it.free ≠ 0 →
      ∃ h, cx.hdr it.free = some h ∧ (h.inc_off ≠ 0 ∨ h.free_off ≠ 0) := by
    intro ip it hit hfree
    obtain ⟨hl, -, hsp⟩ := hok.1 ip it hit
    obtain ⟨tail, h, hL, hh, -⟩ := is_list_head hl hfree
    obtain ⟨x, hx, hc⟩ := hsp it.free (by rw [hL]; exact List.mem_cons_self _ _)
    rw [hh] at hx
    cases hx
    exact ⟨h, hh, hc⟩
  refine ⟨?_, ?_, ?_⟩
  · intro hm
    obtain ⟨ip, it, h, hip, hit, hfree, hh, hbad⟩ := malloc_assert_cases hm
    rcases hbad with hle | ⟨hi, hf⟩
    · exact hle (hsz s ip it hip hit)
    · obtain ⟨x, hx, hc⟩ := hhead ip it hit hfree
      rw [hh] at hx
      cases hx
      rcases hc with hc | hc
      · exact hc hi
      · exact hc hf
  · intro ip it hip hit
    by_cases hs : s < cx.max_size
    · by_cases hfree : it.free = 0
      · refine ⟨0, cx, ?_⟩
        unfold bibop_malloc_cx
        simp [Nat.not_le.mpr hs, hip, hit, hfree]
      · obtain ⟨h, hh, hc⟩ := hhead ip it hit hfree
        by_cases hi : h.inc_off = 0
        · have hf : h.free_off ≠ 0 := by
            rcases hc with hc | hc
            · exact absurd hi hc
            · exact hc
          exact ⟨_, _, malloc_eq_of_head hs hip hit hfree hh (hsz s ip it hip hit)
            (carve_recycle hi hf)⟩
        · exact ⟨_, _, malloc_eq_of_head hs hip hit hfree hh (hsz s ip it hip hit)
            (carve_bump hi)⟩
    · refine ⟨0, cx, ?_⟩
      unfold bibop_malloc_cx
      simp [Nat.le_of_not_lt hs]
  · intro p cx' hm
    refine ⟨free_lists_ok_step hok hm, ?_⟩
    intro s' ip it hip hit
    rcases malloc_ok_cases hm with ⟨-, hcx⟩ |
      ⟨ip0, it0, h, h1, -, -, hit0, -, -, -, -, hcx⟩
    · subst hcx
      exact hsz s' ip it hip hit
    · rw [hcx, (relink_frame _ _ _ _ _).1] at hip
      rw [hcx] at hit
      rcases relink_item_cases hit with ⟨hj, -, -, ho⟩ | hold
      · rw [ho]
        exact hsz s' ip it0 hip (hj ▸ hit0)
      · exact hsz s' ip it hip hold

/-- Witness of C16 as amended: the context `fresh_cx 17 16 4064`, whose one free-page list
holds the page at 4096. -/
theorem malloc_asserts_hold_witness :
    bibop_malloc_cx (fresh_cx 17 16 4064) 8 ≠ .error .assert_fail ∧
    (∀ ip it, (fresh_cx 17 16 4064).free_list[8]? = some ip →
      (fresh_cx 17 16 4064).item ip = some it →
      ∃ p cx', bibop_malloc_cx (fresh_cx 17 16 4064) 8 = .ok (p, cx')) ∧
    (∀ p cx', bibop_malloc_cx (fresh_cx 17 16 4064) 8 = .ok (p, cx') →
      (∃ L', free_lists_ok cx' L') ∧
      (∀ s ip it, cx'.free_list[s]? = some ip → cx'.item ip = some it → s ≤ it.obj_size)) :=
  malloc_asserts_hold (fresh_cx 17 16 4064) (fun j => if j = 100 then [4096] else []) 8
    (fresh_cx_free_lists_ok 17 16 4064 (by decide)) (fresh_cx_sizes 17 16 4064 (by decide))

/-- C17, the code at a failing input: `fresh_cx 17 16 4064` has `max_size` class-array entries
and canonical size 16 at every index 0..16.  The call for size 8 goes through the record at 100,
returns 8160 and fills the page at 4096, which is stamped 16 and moves to the full-page list;
`free_list[16]` is that same record.  `bibop_free_cx` on 8160 takes the address 4064 for the
page (line 155), where no page lives: it is stuck at line 156, line 162 selects no record and
the page is not relinked.  On the owning page line 162 selects the record at 100 and lines
156-170 put the page at the head of its free-page list. -/
theorem free_class_stuck :
    class_sizes_ok (fresh_cx 17 16 4064) ∧
      ∃ cx1, bibop_malloc_cx (fresh_cx 17 16 4064) 8 = .ok (8160, cx1) ∧
        cx1.free_list[8]? = some 100 ∧ cx1.free_list[16]? = some 100 ∧
        cx1.item 100 = some ⟨0, 4096, 16⟩ ∧
        cx1.hdr 4096 = some ⟨0, 0, 0, 0, 0, 0, 16⟩ ∧
        bibop_free_locate 8160 = 4064 ∧ cx1.hdr 4064 = none ∧
        bibop_free_class cx1 (bibop_free_locate 8160) = .error .bad_access ∧
        bibop_free_cx cx1 8160 = .error .bad_access ∧
        bibop_free_class cx1 4096 = .ok 100 ∧
        ∃ cx2, bibop_free_page cx1 8160 4096 = .ok cx2 ∧
          cx2.item 100 = some ⟨4096, 4096, 16⟩ :=
  ⟨⟨rfl, fresh_cx_sizes 17 16 4064 (by decide)⟩, _, rfl, rfl, rfl, rfl, rfl, by decide, rfl, rfl,
    rfl, rfl, _, rfl, rfl⟩

/-- C18, the code at a failing input: the pages 4096 and 8192 are doubly linked on the
free-page list, both lists are well-formed.  The call fills the page 4096 and moves it to the
full-page list; the new free head 8192 keeps `prev = 4096`, so the free-page list is no longer
well-formed (lines 143-147 write no `prev`). -/
theorem malloc_move_breaks_links :
    links_ok free2_cx 8 4096 = true ∧ links_ok free2_cx 8 0 = true ∧
      ∃ cx', bibop_malloc_cx free2_cx 8 = .ok (8160, cx') ∧
        cx'.item 100 = some ⟨8192, 4096, 16⟩ ∧
        cx'.hdr 8192 = some ⟨0, 4096, 4064, 0, 0, 0, 16⟩ ∧
        links_ok cx' 8 8192 = false :=
  ⟨by decide, by decide, _, rfl, rfl, rfl, rfl⟩

end Bibop
